import Mathlib

/-!
# chaos_bug_cache_sum: the fault-injecting page source and its list loop

A shallow embedding of `chaos/table_chaos_bug_cache_sum.go`.

* Go `int` is modelled by `Int`; every `+` of the source is followed by `wrapInt`,
  the 64-bit two's-complement wrap-around.
* Go `float64` is modelled by the rational it denotes; every float operation is the exact
  operation followed by `roundF64` (53-bit significand, round to nearest, ties to even).
* The package-level variables the code only reads are the fields of `Config`; the one
  variable it writes, `errorCountBugCacheSum`, is threaded explicitly.
* An `error` is modelled by its message.
-/

namespace Chaos

/-! ## Machine integers -/

/-- Smallest value of a 64-bit Go `int`. -/
def minInt : Int := -(2 ^ 63)

/-- Largest value of a 64-bit Go `int`. -/
def maxInt : Int := 2 ^ 63 - 1

/-- Two's-complement wrap-around of an integer result to 64 bits. -/
def wrapInt (x : Int) : Int := (x + 2 ^ 63) % 2 ^ 64 - 2 ^ 63

/-- The integer is a value of the 64-bit Go type `int`. -/
def IsInt (x : Int) : Prop := minInt ≤ x ∧ x ≤ maxInt

instance (x : Int) : Decidable (IsInt x) := by unfold IsInt; infer_instance

/-! ## float64 -/

/-- Nearest integer to a rational, ties going to the even neighbour. -/
def roundHalfEven (s : ℚ) : Int :=
  let f : Int := ⌊s⌋
  let r : ℚ := s - f
  if r < 1 / 2 then f
  else if 1 / 2 < r then f + 1
  else if f % 2 = 0 then f else f + 1

/-- Rounding of an exact result to binary64: the significand is scaled to `[2^52, 2^53)` and
rounded to the nearest integer, ties to even.  The exponent range of binary64 is not modelled:
every value computed below has magnitude between `1/2` and `2^67`. -/
def roundF64 (x : ℚ) : ℚ :=
  if x = 0 then 0
  else
    let e : Int := Int.log 2 |x| - 52
    (roundHalfEven (x / 2 ^ e) : ℚ) * 2 ^ e

/-- Go conversion `float64(n)` of an `int`. -/
def float64 (n : Int) : ℚ := roundF64 (n : ℚ)

/-- Go `+` on `float64`. -/
def f64Add (a b : ℚ) : ℚ := roundF64 (a + b)

/-- Go `*` on `float64`. -/
def f64Mul (a b : ℚ) : ℚ := roundF64 (a * b)

/-! ## Data model -/

/-- The Go struct `ItemBugCacheSum`. -/
structure ItemBugCacheSum where
  Id : String
  Amount : ℚ
  Page : Int
  deriving DecidableEq

/-- The Go struct `PagingResponse`: the index of the page to ask for next. -/
structure PagingResponse where
  NextPage : Int
  deriving DecidableEq

/-- The package-level variables that the code reads and never assigns, together with the
constant `retriableErrorString` declared elsewhere in the package. -/
structure Config where
  maxPagesBugCacheSum : Int
  pageSize : Int
  failureCountBugCacheSum : Int
  errorAfterPagesBugCacheSum : Int
  retriableErrorString : String

/-- The value of `noMorePagesBugCacheSum`. -/
def noMorePagesBugCacheSum : Int := -1

/-- The values the source file initialises the variables with. -/
def codedConfig (retriable : String) : Config :=
  { maxPagesBugCacheSum := 4
    pageSize := 2500
    failureCountBugCacheSum := 5
    errorAfterPagesBugCacheSum := 3
    retriableErrorString := retriable }

/-- The three results of `getPageBugCacheSum`: a nil slice is the empty list, a nil pointer
and a nil error are `none`. -/
structure PageResult where
  items : List ItemBugCacheSum
  resp : Option PagingResponse
  err : Option String
  deriving DecidableEq

/-! ## getPageBugCacheSum -/

/-- Go `fmt.Sprintf("%d", n)`: the decimal rendering of an integer. -/
def sprintD (n : Int) : String := toString n

/-- The struct literal built in the body of the item loop. -/
def newItem (pageNumber i : Int) : ItemBugCacheSum :=
  { Id := sprintD pageNumber ++ "_" ++ sprintD i
    Amount := f64Mul 10 (f64Add (float64 pageNumber) (1 / 2))
    Page := pageNumber }

/-- The loop `for i := 0; i < pageSize; i++ { items = append(items, ...) }`, entered with the
current `i` and `items`; `fuel` bounds the number of iterations. -/
def itemLoop (pageNumber pageSize : Int) : Nat → Int → List ItemBugCacheSum → List ItemBugCacheSum
  | 0, _, items => items
  | fuel + 1, i, items =>
    if i < pageSize then
      itemLoop pageNumber pageSize fuel (wrapInt (i + 1)) (items ++ [newItem pageNumber i])
    else items

/-- The function `getPageBugCacheSum`: from the page number and the current value of
`errorCountBugCacheSum` to the three results and the new value of the counter. -/
def getPageBugCacheSum (cfg : Config) (pageNumber : Int) (errorCount : Int) : PageResult × Int :=
  if pageNumber = cfg.maxPagesBugCacheSum then
    ({ items := [], resp := none, err := some "invalid page" }, errorCount)
  else if pageNumber = cfg.errorAfterPagesBugCacheSum ∧ errorCount < cfg.failureCountBugCacheSum then
    ({ items := [], resp := none, err := some cfg.retriableErrorString }, wrapInt (errorCount + 1))
  else
    let items := itemLoop pageNumber cfg.pageSize cfg.pageSize.toNat 0 []
    let nextPage := wrapInt (pageNumber + 1)
    let nextPage := if nextPage = cfg.maxPagesBugCacheSum then noMorePagesBugCacheSum else nextPage
    ({ items := items, resp := some { NextPage := nextPage }, err := none }, errorCount)

/-! ## listBugCacheSumFunction -/

/-- The Go struct `ListBugCacheSumResponse`. -/
structure ListBugCacheSumResponse where
  Items : List ItemBugCacheSum
  Resp : Option PagingResponse
  deriving DecidableEq

/-- What an observer of a run sees: each call of `getPageBugCacheSum` with the page asked
for and the error it returned, and each record handed to `StreamListItem`. -/
inductive Event where
  | fetch (page : Int) (err : Option String)
  | stream (item : ItemBugCacheSum)
  deriving DecidableEq

/-- The mutable state of a run: the package variable `errorCountBugCacheSum` and the
observations made so far (oldest first). -/
structure World where
  errorCount : Int
  trace : List Event

/-- The closure `listPage` of `listBugCacheSumFunction`, which reads the captured variable
`nextPage`, calls `getPageBugCacheSum` and packs the result. -/
def listPage (cfg : Config) (nextPage : Int) (w : World) :
    (ListBugCacheSumResponse × Option String) × World :=
  let r := getPageBugCacheSum cfg nextPage w.errorCount
  (({ Items := r.1.items, Resp := r.1.resp }, r.1.err),
    { errorCount := r.2, trace := w.trace ++ [Event.fetch nextPage r.1.err] })

/-- Modelled from the spec: `shouldRetryErrorLegacy`, declared elsewhere in the package, the
classification function of the retry policy, which recognises the retriable error by its
exact message. -/
def shouldRetryErrorLegacy (cfg : Config) (err : String) : Bool :=
  err == cfg.retriableErrorString

/-- Modelled from the spec: `plugin.RetryHydrate` of the plugin SDK, the retry policy. It
invokes the hydrate function and re-invokes it while the error satisfies `shouldRetry` and
fewer than `retries` retries were made; any other outcome is returned at once, unchanged. -/
def RetryHydrate {α : Type} (shouldRetry : String → Bool)
    (hydrate : World → (α × Option String) × World) : Nat → World → (α × Option String) × World
  | 0, w => hydrate w
  | retries + 1, w =>
    match hydrate w with
    | ((resp, some err), w1) =>
      if shouldRetry err then RetryHydrate shouldRetry hydrate retries w1
      else ((resp, some err), w1)
    | ((resp, none), w1) => ((resp, none), w1)

/-- The call `d.StreamListItem(ctx, i)`. -/
def StreamListItem (w : World) (i : ItemBugCacheSum) : World :=
  { w with trace := w.trace ++ [Event.stream i] }

/-- How a call of `listBugCacheSumFunction` ends: it returns `(nil, err)`, or the read of
`resp.NextPage` dereferences a nil pointer. -/
inductive ListOutcome where
  | returned (err : Option String)
  | nilDeref
  deriving DecidableEq

/-- The loop `for { ... }` of `listBugCacheSumFunction`, entered with the current value of
`nextPage`; `fuel` bounds the number of iterations and `none` means it was used up. -/
def listLoop (cfg : Config) (retries : Nat) : Nat → Int → World → Option (ListOutcome × World)
  | 0, _, _ => none
  | fuel + 1, nextPage, w =>
    match RetryHydrate (shouldRetryErrorLegacy cfg) (listPage cfg nextPage) retries w with
    | ((_, some err), w1) => some (ListOutcome.returned (some err), w1)
    | ((listResponse, none), w1) =>
      let w2 := listResponse.Items.foldl StreamListItem w1
      match listResponse.Resp with
      | none => some (ListOutcome.nilDeref, w2)
      | some resp =>
        if resp.NextPage = noMorePagesBugCacheSum then some (ListOutcome.returned none, w2)
        else listLoop cfg retries fuel resp.NextPage w2

/-- The function `listBugCacheSumFunction`, run under a retry policy that permits `retries`
retries. -/
def listBugCacheSumFunction (cfg : Config) (retries fuel : Nat) (w : World) :
    Option (ListOutcome × World) :=
  listLoop cfg retries fuel 0 w

/-- The records handed to `StreamListItem`, in order. -/
def streamed (t : List Event) : List ItemBugCacheSum :=
  t.filterMap fun e => match e with
    | Event.stream i => some i
    | Event.fetch _ _ => none

/-- The calls of `getPageBugCacheSum`, in order: page asked for and error returned. -/
def fetches (t : List Event) : List (Int × Option String) :=
  t.filterMap fun e => match e with
    | Event.fetch p err => some (p, err)
    | Event.stream _ => none

/-! ## Specification vocabulary -/

/-- The variables of the configuration hold values of the Go type `int`. -/
def Config.InRange (cfg : Config) : Prop :=
  IsInt cfg.maxPagesBugCacheSum ∧ IsInt cfg.pageSize ∧ IsInt cfg.failureCountBugCacheSum ∧
    IsInt cfg.errorAfterPagesBugCacheSum

instance (cfg : Config) : Decidable cfg.InRange := by unfold Config.InRange; infer_instance

/-- The records of page `p`: items `0, 1, ..., pageSize - 1`. -/
def pageItems (cfg : Config) (p : Int) : List ItemBugCacheSum :=
  (List.range cfg.pageSize.toNat).map fun (i : Nat) => newItem p (i : Int)

/-- The records of pages `0, 1, ..., n - 1`, in page order and item order. -/
def pagesItems (cfg : Config) (n : Nat) : List ItemBugCacheSum :=
  (List.range n).flatMap fun (p : Nat) => pageItems cfg (p : Int)

/-- Specification side: the decimal rendering of a natural number, written from the words of
the specification and not from the code: the digits in base ten, most significant first, each
digit `d` as the character with code `48 + d`, and the single character `0` for zero. -/
def decimalNat (n : Nat) : List Char :=
  if n = 0 then ['0'] else (Nat.digits 10 n).reverse.map fun d => Char.ofNat (48 + d)

/-- Specification side: the decimal rendering of an integer, a minus sign before the rendering
of the absolute value when the integer is negative. -/
def decimalInt (n : Int) : List Char :=
  if n < 0 then '-' :: decimalNat n.natAbs else decimalNat n.natAbs

/-- The value `NextPage` of a successful call for page `p`. -/
def nextOf (cfg : Config) (p : Int) : Int :=
  if wrapInt (p + 1) = cfg.maxPagesBugCacheSum then noMorePagesBugCacheSum else wrapInt (p + 1)

/-- A sequence of calls of `getPageBugCacheSum`, one per requested page, the counter being
carried from each call to the next; the results are listed in call order. -/
def getPages (cfg : Config) : List Int → Int → List PageResult
  | [], _ => []
  | p :: ps, errorCount =>
    (getPageBugCacheSum cfg p errorCount).1 ::
      getPages cfg ps (getPageBugCacheSum cfg p errorCount).2

/-- The number of failures still due when page `q` is asked for with counter `errorCount`. -/
def retriesAt (cfg : Config) (errorCount q : Int) : Nat :=
  if q = cfg.errorAfterPagesBugCacheSum then (cfg.failureCountBugCacheSum - errorCount).toNat
  else 0

/-- What is observed while page `q` is fetched with `n` failed attempts before the successful
one, and then streamed. -/
def pageEvents (cfg : Config) (q : Int) (n : Nat) : List Event :=
  List.replicate n (Event.fetch q (some cfg.retriableErrorString)) ++ [Event.fetch q none] ++
    (pageItems cfg q).map Event.stream

/-- The number of calls of `getPageBugCacheSum` for page `p` that returned an error. -/
def failedFetches (p : Int) (t : List Event) : Nat :=
  ((fetches t).filter fun f => f.1 = p ∧ f.2.isSome).length

/-- Successive calls of `listBugCacheSumFunction`, one per retry budget of the list, each
starting in the state the previous one left (the package variable is not re-initialised). -/
def listRuns (cfg : Config) (fuel : Nat) : List Nat → World → Option World
  | [], w => some w
  | retries :: rest, w =>
    match listBugCacheSumFunction cfg retries fuel w with
    | none => none
    | some (_, w1) => listRuns cfg fuel rest w1

/-- How a call of `getPageBugCacheSum` follows the previous one within a run: the same page
again after a retriable failure, or the next page after a success. -/
def FetchStep (cfg : Config) (a b : Int × Option String) : Prop :=
  (b.1 = a.1 ∧ a.2 = some cfg.retriableErrorString) ∨ (b.1 = a.1 + 1 ∧ a.2 = none)

/-- The calls made for page `q`: `n` failed ones and the successful one. -/
def pageFetches (cfg : Config) (n : Nat → Nat) (q : Nat) : List (Int × Option String) :=
  List.replicate (n q) ((q : Int), some cfg.retriableErrorString) ++ [((q : Int), none)]

/-! ## Lemmas on machine integers and the item loop -/

theorem wrapInt_of_isInt {x : Int} (h : IsInt x) : wrapInt x = x := by
  unfold IsInt minInt maxInt at h
  unfold wrapInt
  omega

theorem isInt_wrapInt (x : Int) : IsInt (wrapInt x) := by
  unfold IsInt minInt maxInt wrapInt
  omega

theorem wrapInt_succ {x : Int} (h0 : minInt ≤ x) (h1 : x < maxInt) : wrapInt (x + 1) = x + 1 := by
  apply wrapInt_of_isInt
  unfold IsInt
  unfold minInt maxInt at *
  omega

theorem itemLoop_eq (p ps : Int) (hps : ps ≤ maxInt) :
    ∀ (fuel : Nat) (i : Int) (items : List ItemBugCacheSum), 0 ≤ i → (ps - i).toNat ≤ fuel →
      itemLoop p ps fuel i items
        = items ++ (List.range (ps - i).toNat).map fun (k : Nat) => newItem p (i + (k : Int)) := by
  intro fuel
  induction fuel with
  | zero =>
    intro i items _ hf
    have h0 : (ps - i).toNat = 0 := by omega
    simp [itemLoop, h0]
  | succ fuel ih =>
    intro i items hi hf
    unfold itemLoop
    by_cases hlt : i < ps
    · have hw : wrapInt (i + 1) = i + 1 :=
        wrapInt_succ (by unfold minInt; omega) (by omega)
      have hn : (ps - i).toNat = (ps - (i + 1)).toNat + 1 := by omega
      rw [if_pos hlt, hw, ih (i + 1) _ (by omega) (by omega), hn, List.range_succ_eq_map]
      simp only [List.map_cons, List.map_map, List.append_assoc, List.singleton_append]
      congr 2
      · simp
      · apply List.map_congr_left
        intro k _
        simp only [Function.comp, Nat.cast_succ]
        congr 1
        omega
    · have h0 : (ps - i).toNat = 0 := by omega
      simp [if_neg hlt, h0]

theorem itemLoop_pageItems (cfg : Config) (p : Int) (hps : cfg.pageSize ≤ maxInt) :
    itemLoop p cfg.pageSize cfg.pageSize.toNat 0 [] = pageItems cfg p := by
  rw [itemLoop_eq p cfg.pageSize hps _ 0 [] (le_refl 0) (by simp)]
  simp [pageItems]

/-- More fuel than `pageSize` iterations changes nothing: the item loop has finished. -/
theorem itemLoop_fuel (cfg : Config) (p : Int) (hps : cfg.pageSize ≤ maxInt) (fuel : Nat)
    (hf : cfg.pageSize.toNat ≤ fuel) :
    itemLoop p cfg.pageSize fuel 0 [] = pageItems cfg p := by
  rw [itemLoop_eq p cfg.pageSize hps _ 0 [] (le_refl 0) (by simpa using hf)]
  simp [pageItems]

theorem length_pageItems (cfg : Config) (p : Int) :
    (pageItems cfg p).length = cfg.pageSize.toNat := by
  simp [pageItems]

theorem getElem?_pageItems (cfg : Config) (p : Int) (i : Nat) (hi : i < cfg.pageSize.toNat) :
    (pageItems cfg p)[i]? = some (newItem p (i : Int)) := by
  simp [pageItems, List.getElem?_map, List.getElem?_range hi]

/-! ## Lemmas on float64 rounding -/

theorem roundHalfEven_intCast (n : Int) : roundHalfEven (n : ℚ) = n := by
  simp [roundHalfEven]

theorem roundF64_of_bounds {x : ℚ} (hx : x ≠ 0) (e : Int) (h1 : (2 : ℚ) ^ (e + 52) ≤ |x|)
    (h2 : |x| < (2 : ℚ) ^ (e + 53)) :
    roundF64 x = (roundHalfEven (x / 2 ^ e) : ℚ) * 2 ^ e := by
  have hpos : (0 : ℚ) < |x| := abs_pos.mpr hx
  have hlog : Int.log 2 |x| = e + 52 := by
    apply le_antisymm
    · have := (Int.lt_zpow_iff_log_lt (b := 2) (by norm_num) hpos (x := e + 53)).mp
        (by simpa using h2)
      omega
    · exact (Int.zpow_le_iff_le_log (b := 2) (by norm_num) hpos (x := e + 52)).mp
        (by simpa using h1)
  unfold roundF64
  rw [if_neg hx]
  simp only [hlog, add_sub_cancel_right]

theorem roundF64_exact (n z : Int) (hn : |n| < 2 ^ 53) :
    roundF64 ((n : ℚ) * 2 ^ z) = (n : ℚ) * 2 ^ z := by
  by_cases h0 : n = 0
  · simp [h0, roundF64]
  have h2pos : (0 : ℚ) < 2 ^ z := zpow_pos (by norm_num) z
  have hx : (n : ℚ) * 2 ^ z ≠ 0 := mul_ne_zero (by exact_mod_cast h0) (ne_of_gt h2pos)
  have hpos : (0 : ℚ) < |(n : ℚ) * 2 ^ z| := abs_pos.mpr hx
  have hlt : |(n : ℚ) * 2 ^ z| < (2 : ℚ) ^ (53 + z) := by
    rw [abs_mul, abs_of_pos h2pos, zpow_add₀ (by norm_num : (2 : ℚ) ≠ 0)]
    apply mul_lt_mul_of_pos_right _ h2pos
    have : ((|n| : Int) : ℚ) < ((2 ^ 53 : Int) : ℚ) := by exact_mod_cast hn
    rw [Int.cast_abs] at this
    norm_num at this ⊢
    exact this
  have hlog : Int.log 2 |(n : ℚ) * 2 ^ z| < 53 + z :=
    (Int.lt_zpow_iff_log_lt (b := 2) (by norm_num) hpos (x := 53 + z)).mp (by simpa using hlt)
  unfold roundF64
  rw [if_neg hx]
  generalize Int.log 2 |(n : ℚ) * 2 ^ z| = L at hlog
  simp only
  obtain ⟨k, hk⟩ : ∃ k : Nat, z = (L - 52) + k := ⟨(z - (L - 52)).toNat, by omega⟩
  have hdiv : (n : ℚ) * 2 ^ z / 2 ^ (L - 52) = ((n * 2 ^ k : Int) : ℚ) := by
    rw [hk, zpow_add₀ (by norm_num : (2 : ℚ) ≠ 0)]
    field_simp
    ring
  rw [hdiv, roundHalfEven_intCast, hk, zpow_add₀ (by norm_num : (2 : ℚ) ≠ 0)]
  push_cast
  simp only [zpow_natCast]
  ring
theorem roundHalfEven_add_lt_half (n : Int) (r : ℚ) (h0 : 0 ≤ r) (h1 : r < 1 / 2) :
    roundHalfEven ((n : ℚ) + r) = n := by
  have hf : ⌊(n : ℚ) + r⌋ = n := by
    rw [Int.floor_eq_iff]
    constructor <;> linarith
  simp only [roundHalfEven, hf, add_sub_cancel_left, if_pos h1]

/-- The amount the source computes for a page whose `10 * p + 5` has at most 53 bits. -/
theorem amount_exact (p i : Int) (hb : |10 * p + 5| < 2 ^ 53) :
    (newItem p i).Amount = 10 * (p : ℚ) + 5 := by
  have hb' := abs_lt.mp hb
  have e1 : float64 p = (p : ℚ) := by
    have := roundF64_exact p 0 (abs_lt.mpr ⟨by omega, by omega⟩)
    simpa [float64] using this
  have e2 : f64Add (p : ℚ) (1 / 2) = (p : ℚ) + 1 / 2 := by
    have := roundF64_exact (2 * p + 1) (-1) (abs_lt.mpr ⟨by omega, by omega⟩)
    have hx : ((2 * p + 1 : Int) : ℚ) * 2 ^ (-1 : Int) = (p : ℚ) + 1 / 2 := by
      push_cast
      rw [zpow_neg_one]
      ring
    rw [hx] at this
    exact this
  have e3 : f64Mul 10 ((p : ℚ) + 1 / 2) = 10 * (p : ℚ) + 5 := by
    have := roundF64_exact (10 * p + 5) 0 hb
    have hx : ((10 * p + 5 : Int) : ℚ) * 2 ^ (0 : Int) = 10 * ((p : ℚ) + 1 / 2) := by
      push_cast
      ring
    rw [hx] at this
    rw [f64Mul, this]
    ring
  show f64Mul 10 (f64Add (float64 p) (1 / 2)) = _
  rw [e1, e2, e3]

/-- The amount the source computes for page `2 ^ 53`: adding one half is lost to rounding. -/
theorem amount_two_pow_53 (i : Int) : (newItem (2 ^ 53) i).Amount = 10 * 2 ^ 53 := by
  have e1 : float64 (2 ^ 53) = (2 : ℚ) ^ 53 := by
    have := roundF64_exact (2 ^ 52) 1 (by norm_num)
    norm_num [float64] at this ⊢
    exact this
  have e2 : f64Add ((2 : ℚ) ^ 53) (1 / 2) = (2 : ℚ) ^ 53 := by
    have hr := roundF64_of_bounds (x := (2 : ℚ) ^ 53 + 1 / 2) (by norm_num) 1
      (by norm_num [abs_of_pos]) (by norm_num [abs_of_pos])
    have hs : ((2 : ℚ) ^ 53 + 1 / 2) / 2 ^ (1 : Int) = ((2 ^ 52 : Int) : ℚ) + 1 / 4 := by
      norm_num
    rw [hs, roundHalfEven_add_lt_half _ _ (by norm_num) (by norm_num)] at hr
    rw [f64Add, hr]
    norm_num
  have e3 : f64Mul 10 ((2 : ℚ) ^ 53) = 10 * 2 ^ 53 := by
    have := roundF64_exact 5 54 (by norm_num)
    norm_num [f64Mul] at this ⊢
    exact this
  show f64Mul 10 (f64Add (float64 (2 ^ 53)) (1 / 2)) = _
  rw [e1, e2, e3]

theorem mem_itemLoop (p ps : Int) :
    ∀ (fuel : Nat) (i : Int) (items : List ItemBugCacheSum) (item : ItemBugCacheSum),
      item ∈ itemLoop p ps fuel i items → item ∈ items ∨ ∃ k, item = newItem p k := by
  intro fuel
  induction fuel with
  | zero => intro i items item h; exact Or.inl h
  | succ fuel ih =>
    intro i items item h
    unfold itemLoop at h
    split at h
    · rcases ih _ _ item h with h | h
      · rcases List.mem_append.mp h with h | h
        · exact Or.inl h
        · exact Or.inr ⟨i, by simpa using h⟩
      · exact Or.inr h
    · exact Or.inl h

/-! ## The code's rendering of integers is the decimal rendering -/

theorem digitChar_eq (d : Nat) (h : d < 10) : Nat.digitChar d = Char.ofNat (48 + d) := by
  interval_cases d <;> rfl

theorem toDigitsCore_eq :
    ∀ (fuel n : Nat) (ds : List Char), 0 < n → n < fuel →
      Nat.toDigitsCore 10 fuel n ds
        = ((Nat.digits 10 n).reverse.map fun d => Char.ofNat (48 + d)) ++ ds := by
  intro fuel
  induction fuel with
  | zero => intro n ds _ h; omega
  | succ fuel ih =>
    intro n ds hpos hlt
    have hd : Nat.digitChar (n % 10) = Char.ofNat (48 + n % 10) :=
      digitChar_eq _ (Nat.mod_lt _ (by decide))
    rw [Nat.digits_def' (by decide) hpos]
    simp only [Nat.toDigitsCore, hd, List.reverse_cons, List.map_append, List.map_cons,
      List.map_nil, List.append_assoc, List.singleton_append]
    by_cases h0 : n / 10 = 0
    · simp [h0]
    · rw [if_neg h0, ih (n / 10) _ (Nat.pos_of_ne_zero h0) (by omega)]

theorem toDigits_eq (n : Nat) : Nat.toDigits 10 n = decimalNat n := by
  unfold decimalNat Nat.toDigits
  by_cases h : n = 0
  · subst h
    rfl
  · rw [if_neg h, toDigitsCore_eq (n + 1) n [] (Nat.pos_of_ne_zero h) (by omega),
      List.append_nil]

theorem sprintD_toList (n : Int) : (sprintD n).toList = decimalInt n := by
  unfold decimalInt
  cases n with
  | ofNat m =>
    have h : ¬ (Int.ofNat m < 0) := by simp
    rw [if_neg h]
    show (Nat.toDigits 10 m).asString.toList = _
    rw [toDigits_eq]
    rfl
  | negSucc m =>
    have h : Int.negSucc m < 0 := Int.negSucc_lt_zero m
    rw [if_pos h]
    show ("-" ++ (Nat.toDigits 10 (m + 1)).asString).toList = _
    rw [toDigits_eq]
    rfl

theorem newItem_Id_toList (p i : Int) :
    (newItem p i).Id.toList = decimalInt p ++ '_' :: decimalInt i := by
  show (sprintD p ++ "_" ++ sprintD i).toList = _
  simp only [String.toList, String.data_append]
  rw [← String.toList, ← String.toList, sprintD_toList, sprintD_toList]
  simp

/-! ## The three branches of getPageBugCacheSum -/

theorem getPage_invalid (cfg : Config) (ec : Int) :
    getPageBugCacheSum cfg cfg.maxPagesBugCacheSum ec
      = ({ items := [], resp := none, err := some "invalid page" }, ec) := by
  simp [getPageBugCacheSum]

theorem getPage_retriable (cfg : Config) (p ec : Int) (hp : p ≠ cfg.maxPagesBugCacheSum)
    (he : p = cfg.errorAfterPagesBugCacheSum) (hc : ec < cfg.failureCountBugCacheSum) :
    getPageBugCacheSum cfg p ec
      = ({ items := [], resp := none, err := some cfg.retriableErrorString },
          wrapInt (ec + 1)) := by
  unfold getPageBugCacheSum
  rw [if_neg hp, if_pos ⟨he, hc⟩]

theorem getPage_ok (cfg : Config) (p ec : Int) (hp : p ≠ cfg.maxPagesBugCacheSum)
    (he : ¬ (p = cfg.errorAfterPagesBugCacheSum ∧ ec < cfg.failureCountBugCacheSum)) :
    getPageBugCacheSum cfg p ec
      = ({ items := itemLoop p cfg.pageSize cfg.pageSize.toNat 0 [],
           resp := some { NextPage := nextOf cfg p }, err := none }, ec) := by
  unfold getPageBugCacheSum nextOf
  rw [if_neg hp, if_neg he]

/-- A call succeeds exactly when neither guard fires. -/
theorem getPage_err_none_iff (cfg : Config) (p ec : Int) :
    (getPageBugCacheSum cfg p ec).1.err = none ↔
      p ≠ cfg.maxPagesBugCacheSum ∧
        ¬ (p = cfg.errorAfterPagesBugCacheSum ∧ ec < cfg.failureCountBugCacheSum) := by
  by_cases hp : p = cfg.maxPagesBugCacheSum
  · subst hp
    simp [getPage_invalid]
  · by_cases he : p = cfg.errorAfterPagesBugCacheSum ∧ ec < cfg.failureCountBugCacheSum
    · rw [getPage_retriable cfg p ec hp he.1 he.2]
      simp [he.1, he.2]
    · rw [getPage_ok cfg p ec hp he]
      simp [hp, he]

/-! ## Sequences of calls -/

theorem getPages_errorAfterPage (cfg : Config) (hmax : cfg.failureCountBugCacheSum ≤ maxInt)
    (hne : cfg.errorAfterPagesBugCacheSum ≠ cfg.maxPagesBugCacheSum) :
    ∀ (ps : List Int) (ec : Int) (j : Nat), 0 ≤ ec → (hj : j < ps.length) →
      ps[j] = cfg.errorAfterPagesBugCacheSum →
      ∃ r, (getPages cfg ps ec)[j]? = some r ∧
        (ec + ((ps.take (j + 1)).count cfg.errorAfterPagesBugCacheSum : Int)
            ≤ cfg.failureCountBugCacheSum →
          r = { items := [], resp := none, err := some cfg.retriableErrorString }) ∧
        (cfg.failureCountBugCacheSum
            < ec + ((ps.take (j + 1)).count cfg.errorAfterPagesBugCacheSum : Int) →
          r.err = none ∧ r.resp = some { NextPage := nextOf cfg cfg.errorAfterPagesBugCacheSum })
    := by
  intro ps
  induction ps with
  | nil => intro ec j _ hj; simp at hj
  | cons p ps ih =>
    intro ec j hec hj hp
    cases j with
    | zero =>
      simp only [List.getElem_cons_zero] at hp
      subst hp
      refine ⟨(getPageBugCacheSum cfg cfg.errorAfterPagesBugCacheSum ec).1, by simp [getPages], ?_, ?_⟩
      · intro h
        simp only [zero_add, List.take_succ_cons, List.take_zero, List.count_cons_self,
          List.count_nil, Nat.cast_one] at h
        rw [getPage_retriable cfg _ ec hne rfl (by omega)]
      · intro h
        simp only [zero_add, List.take_succ_cons, List.take_zero, List.count_cons_self,
          List.count_nil, Nat.cast_one] at h
        rw [getPage_ok cfg _ ec hne (by omega)]
        simp
    | succ j =>
      simp only [List.getElem_cons_succ] at hp
      have hj2 : j < ps.length := by simpa using hj
      have hc1 : 1 ≤ (ps.take (j + 1)).count cfg.errorAfterPagesBugCacheSum := by
        apply List.count_pos_iff.mpr
        rw [List.mem_iff_getElem]
        exact ⟨j, by simp [hj2], by simp [hp]⟩
      simp only [getPages, List.getElem?_cons_succ, List.take_succ_cons, List.count_cons]
      by_cases hpe : p = cfg.errorAfterPagesBugCacheSum
      · by_cases hlt : ec < cfg.failureCountBugCacheSum
        · rw [getPage_retriable cfg p ec (hpe ▸ hne) hpe hlt,
            wrapInt_succ (by unfold minInt; omega) (by omega)]
          obtain ⟨r, hr, h1, h2⟩ := ih (ec + 1) j (by omega) hj2 hp
          refine ⟨r, hr, ?_, ?_⟩
          · intro h; apply h1; simp [hpe] at h; omega
          · intro h; apply h2; simp [hpe] at h; omega
        · rw [getPage_ok cfg p ec (hpe ▸ hne) (by omega)]
          obtain ⟨r, hr, _, h2⟩ := ih ec j hec hj2 hp
          refine ⟨r, hr, ?_, ?_⟩
          · intro h; simp [hpe] at h; omega
          · intro _; apply h2; omega
      · have hsame : (getPageBugCacheSum cfg p ec).2 = ec := by
          by_cases hpm : p = cfg.maxPagesBugCacheSum
          · subst hpm; rw [getPage_invalid]
          · rw [getPage_ok cfg p ec hpm (by simp [hpe])]
        rw [hsame]
        obtain ⟨r, hr, h1, h2⟩ := ih ec j hec hj2 hp
        refine ⟨r, hr, ?_, ?_⟩
        · intro h; apply h1; simp [hpe] at h; omega
        · intro h; apply h2; simp [hpe] at h; omega

/-! ## The retry wrapper around one page -/

theorem listPage_ok (cfg : Config) (p ec : Int) (t : List Event)
    (hp : p ≠ cfg.maxPagesBugCacheSum)
    (he : ¬ (p = cfg.errorAfterPagesBugCacheSum ∧ ec < cfg.failureCountBugCacheSum))
    (hps : cfg.pageSize ≤ maxInt) :
    listPage cfg p ⟨ec, t⟩
      = (({ Items := pageItems cfg p, Resp := some { NextPage := nextOf cfg p } }, none),
          ⟨ec, t ++ [Event.fetch p none]⟩) := by
  simp [listPage, getPage_ok cfg p ec hp he, itemLoop_pageItems cfg p hps]

theorem listPage_retriable (cfg : Config) (p ec : Int) (t : List Event)
    (hp : p ≠ cfg.maxPagesBugCacheSum) (he : p = cfg.errorAfterPagesBugCacheSum)
    (hc : ec < cfg.failureCountBugCacheSum) (hlo : minInt ≤ ec)
    (hhi : cfg.failureCountBugCacheSum ≤ maxInt) :
    listPage cfg p ⟨ec, t⟩
      = (({ Items := [], Resp := none }, some cfg.retriableErrorString),
          ⟨ec + 1, t ++ [Event.fetch p (some cfg.retriableErrorString)]⟩) := by
  simp [listPage, getPage_retriable cfg p ec hp he hc, wrapInt_succ hlo (by omega)]

theorem shouldRetry_retriable (cfg : Config) :
    shouldRetryErrorLegacy cfg cfg.retriableErrorString = true := by
  simp [shouldRetryErrorLegacy]

theorem retriesAt_eq_zero_iff (cfg : Config) (ec q : Int) :
    retriesAt cfg ec q = 0 ↔
      ¬ (q = cfg.errorAfterPagesBugCacheSum ∧ ec < cfg.failureCountBugCacheSum) := by
  unfold retriesAt
  split <;> rename_i h
  · simp only [h, true_and]; omega
  · simp [h]

theorem retriesAt_succ (cfg : Config) (ec q : Int) (n : Nat) (h : retriesAt cfg ec q = n + 1) :
    q = cfg.errorAfterPagesBugCacheSum ∧ ec < cfg.failureCountBugCacheSum ∧
      retriesAt cfg (ec + 1) q = n := by
  unfold retriesAt at h ⊢
  split at h <;> rename_i hq
  · refine ⟨hq, by omega, ?_⟩
    rw [if_pos hq]; omega
  · omega

/-- Enough retries: the wrapper returns the page after the failures still due. -/
theorem retry_ok (cfg : Config) (p : Int) (hp : p ≠ cfg.maxPagesBugCacheSum)
    (hps : cfg.pageSize ≤ maxInt) (hhi : cfg.failureCountBugCacheSum ≤ maxInt) :
    ∀ (R : Nat) (ec : Int) (t : List Event), minInt ≤ ec → retriesAt cfg ec p ≤ R →
      RetryHydrate (shouldRetryErrorLegacy cfg) (listPage cfg p) R ⟨ec, t⟩
        = (({ Items := pageItems cfg p, Resp := some { NextPage := nextOf cfg p } }, none),
            ⟨ec + (retriesAt cfg ec p : Int),
              t ++ List.replicate (retriesAt cfg ec p)
                  (Event.fetch p (some cfg.retriableErrorString)) ++ [Event.fetch p none]⟩) := by
  intro R
  induction R with
  | zero =>
    intro ec t _ hn
    have h0 : retriesAt cfg ec p = 0 := by omega
    have he := (retriesAt_eq_zero_iff cfg ec p).mp h0
    simp [RetryHydrate, listPage_ok cfg p ec t hp he hps, h0]
  | succ R ih =>
    intro ec t hlo hn
    cases hk : retriesAt cfg ec p with
    | zero =>
      have he := (retriesAt_eq_zero_iff cfg ec p).mp hk
      simp [RetryHydrate, listPage_ok cfg p ec t hp he hps]
    | succ n =>
      obtain ⟨hq, hlt, hn1⟩ := retriesAt_succ cfg ec p n hk
      unfold RetryHydrate
      rw [listPage_retriable cfg p ec t hp hq hlt hlo hhi]
      simp only [shouldRetry_retriable, if_true]
      rw [ih (ec + 1) _ (by omega) (by omega), hn1]
      simp only [List.replicate_succ, List.append_assoc, List.singleton_append, Nat.cast_succ]
      congr 2
      omega

/-- Too few retries: the wrapper returns the retriable error after `R + 1` attempts. -/
theorem retry_fail (cfg : Config) (p : Int) (hp : p ≠ cfg.maxPagesBugCacheSum)
    (hhi : cfg.failureCountBugCacheSum ≤ maxInt) :
    ∀ (R : Nat) (ec : Int) (t : List Event), minInt ≤ ec → R < retriesAt cfg ec p →
      RetryHydrate (shouldRetryErrorLegacy cfg) (listPage cfg p) R ⟨ec, t⟩
        = (({ Items := [], Resp := none }, some cfg.retriableErrorString),
            ⟨ec + (R : Int) + 1,
              t ++ List.replicate (R + 1) (Event.fetch p (some cfg.retriableErrorString))⟩) := by
  intro R
  induction R with
  | zero =>
    intro ec t hlo hn
    obtain ⟨n, hk⟩ : ∃ n, retriesAt cfg ec p = n + 1 := ⟨retriesAt cfg ec p - 1, by omega⟩
    obtain ⟨hq, hlt, _⟩ := retriesAt_succ cfg ec p n hk
    simp [RetryHydrate, listPage_retriable cfg p ec t hp hq hlt hlo hhi]
  | succ R ih =>
    intro ec t hlo hn
    obtain ⟨n, hk⟩ : ∃ n, retriesAt cfg ec p = n + 1 := ⟨retriesAt cfg ec p - 1, by omega⟩
    obtain ⟨hq, hlt, hn1⟩ := retriesAt_succ cfg ec p n hk
    unfold RetryHydrate
    rw [listPage_retriable cfg p ec t hp hq hlt hlo hhi]
    simp only [shouldRetry_retriable, if_true]
    rw [ih (ec + 1) _ (by omega) (by omega)]
    simp only [List.replicate_succ, List.append_assoc, List.singleton_append, Nat.cast_succ,
      List.cons_append, List.nil_append]
    congr 2
    omega

theorem foldl_StreamListItem (items : List ItemBugCacheSum) :
    ∀ w : World, items.foldl StreamListItem w
      = ⟨w.errorCount, w.trace ++ items.map Event.stream⟩ := by
  induction items with
  | nil => intro w; simp
  | cons i items ih =>
    intro w
    simp [List.foldl_cons, ih, StreamListItem]

/-! ## One iteration of the list loop -/

theorem nextOf_mid (cfg : Config) (p : Int) (h0 : 0 ≤ p) (h1 : p + 1 < cfg.maxPagesBugCacheSum)
    (hm : cfg.maxPagesBugCacheSum ≤ maxInt) :
    nextOf cfg p = p + 1 := by
  have hw : wrapInt (p + 1) = p + 1 := wrapInt_succ (by unfold minInt; omega) (by omega)
  unfold nextOf
  rw [hw, if_neg (by omega)]

theorem nextOf_last (cfg : Config) (p : Int) (h0 : 0 ≤ p) (h1 : p + 1 = cfg.maxPagesBugCacheSum)
    (hm : cfg.maxPagesBugCacheSum ≤ maxInt) :
    nextOf cfg p = noMorePagesBugCacheSum := by
  have hw : wrapInt (p + 1) = p + 1 := wrapInt_succ (by unfold minInt; omega) (by omega)
  unfold nextOf
  rw [hw, if_pos h1]

theorem loop_step_next (cfg : Config) (R fuel : Nat) (p ec : Int) (t : List Event)
    (h0 : 0 ≤ p) (h1 : p + 1 < cfg.maxPagesBugCacheSum) (hr : cfg.InRange) (hlo : minInt ≤ ec)
    (hn : retriesAt cfg ec p ≤ R) :
    listLoop cfg R (fuel + 1) p ⟨ec, t⟩
      = listLoop cfg R fuel (p + 1)
          ⟨ec + (retriesAt cfg ec p : Int), t ++ pageEvents cfg p (retriesAt cfg ec p)⟩ := by
  obtain ⟨hm, hps, hfc, _⟩ := hr
  rw [listLoop, retry_ok cfg p (by omega) hps.2 hfc.2 R ec t hlo hn]
  simp only [foldl_StreamListItem, nextOf_mid cfg p h0 h1 hm.2, noMorePagesBugCacheSum]
  rw [if_neg (by omega)]
  simp [pageEvents]

theorem loop_step_last (cfg : Config) (R fuel : Nat) (p ec : Int) (t : List Event)
    (h0 : 0 ≤ p) (h1 : p + 1 = cfg.maxPagesBugCacheSum) (hr : cfg.InRange) (hlo : minInt ≤ ec)
    (hn : retriesAt cfg ec p ≤ R) :
    listLoop cfg R (fuel + 1) p ⟨ec, t⟩
      = some (ListOutcome.returned none,
          ⟨ec + (retriesAt cfg ec p : Int), t ++ pageEvents cfg p (retriesAt cfg ec p)⟩) := by
  obtain ⟨hm, hps, hfc, _⟩ := hr
  rw [listLoop, retry_ok cfg p (by omega) hps.2 hfc.2 R ec t hlo hn]
  simp only [foldl_StreamListItem, nextOf_last cfg p h0 h1 hm.2, if_true]
  simp [pageEvents]

theorem loop_step_fail (cfg : Config) (R fuel : Nat) (p ec : Int) (t : List Event)
    (hp : p ≠ cfg.maxPagesBugCacheSum) (hr : cfg.InRange) (hlo : minInt ≤ ec)
    (hn : R < retriesAt cfg ec p) :
    listLoop cfg R (fuel + 1) p ⟨ec, t⟩
      = some (ListOutcome.returned (some cfg.retriableErrorString),
          ⟨ec + (R : Int) + 1,
            t ++ List.replicate (R + 1) (Event.fetch p (some cfg.retriableErrorString))⟩) := by
  obtain ⟨_, _, hfc, _⟩ := hr
  rw [listLoop, retry_fail cfg p hp hfc.2 R ec t hlo hn]

theorem retriesAt_after (cfg : Config) (ec p q : Int) (hq : q ≠ p) :
    retriesAt cfg (ec + (retriesAt cfg ec p : Int)) q = retriesAt cfg ec q := by
  unfold retriesAt
  by_cases h1 : q = cfg.errorAfterPagesBugCacheSum
  · have h2 : ¬ (p = cfg.errorAfterPagesBugCacheSum) := fun h => hq (h1.trans h.symm)
    simp [h1, h2]
  · simp [h1]

/-! ## Several iterations -/

/-- The pages `p, p + 1, ..., p + j - 1`, all below the last page and none needing more than
`R` retries, take `j` iterations. -/
theorem loop_iterate (cfg : Config) (R : Nat) (hr : cfg.InRange) :
    ∀ (j p : Nat) (ec : Int) (t : List Event) (fuel : Nat), minInt ≤ ec →
      ((p : Int) + (j : Int) < cfg.maxPagesBugCacheSum) →
      (∀ q : Nat, p ≤ q → q < p + j → retriesAt cfg ec (q : Int) ≤ R) →
      listLoop cfg R (fuel + j) (p : Int) ⟨ec, t⟩
        = listLoop cfg R fuel ((p : Int) + (j : Int))
            ⟨ec + (((List.range' p j).map fun (q : Nat) => retriesAt cfg ec (q : Int)).sum : Nat),
              t ++ (List.range' p j).flatMap
                fun (q : Nat) => pageEvents cfg (q : Int) (retriesAt cfg ec (q : Int))⟩ := by
  intro j
  induction j with
  | zero => intro p ec t fuel _ _ _; simp
  | succ j ih =>
    intro p ec t fuel hlo hlt hall
    have hstep := loop_step_next cfg R (fuel + j) (p : Int) ec t (by omega) (by omega) hr hlo
      (hall p (le_refl p) (by omega))
    rw [show fuel + (j + 1) = fuel + j + 1 by omega, hstep]
    have hcongr : ∀ q : Nat, q ∈ List.range' (p + 1) j →
        retriesAt cfg (ec + (retriesAt cfg ec (p : Int) : Int)) (q : Int)
          = retriesAt cfg ec (q : Int) := by
      intro q hq
      apply retriesAt_after
      have := (List.mem_range'_1.mp hq).1
      omega
    have hih := ih (p + 1) (ec + (retriesAt cfg ec (p : Int) : Int))
      (t ++ pageEvents cfg (p : Int) (retriesAt cfg ec (p : Int))) fuel (by omega)
      (by push_cast; omega)
      (by
        intro q h1 h2
        rw [hcongr q (List.mem_range'_1.mpr ⟨h1, by omega⟩)]
        exact hall q (by omega) (by omega))
    rw [show ((p : Int) + 1) = ((p + 1 : Nat) : Int) by push_cast; rfl, hih]
    have hflat : (List.range' (p + 1) j).flatMap
          (fun (q : Nat) => pageEvents cfg (q : Int)
            (retriesAt cfg (ec + (retriesAt cfg ec (p : Int) : Int)) (q : Int)))
        = (List.range' (p + 1) j).flatMap
          (fun (q : Nat) => pageEvents cfg (q : Int) (retriesAt cfg ec (q : Int))) :=
      List.flatMap_congr fun q hq => by rw [hcongr q hq]
    rw [List.map_congr_left hcongr, hflat]
    have e1 : ((p + 1 : Nat) : Int) + (j : Int) = (p : Int) + ((j + 1 : Nat) : Int) := by
      push_cast; omega
    rw [e1, List.range'_succ, List.map_cons, List.sum_cons, List.flatMap_cons,
      List.append_assoc]
    simp only [Nat.cast_add, add_assoc]

theorem retriesAt_of_ne (cfg : Config) (ec q : Int)
    (h : q ≠ cfg.errorAfterPagesBugCacheSum) : retriesAt cfg ec q = 0 := by
  simp [retriesAt, h]

theorem sum_retriesAt_of_ne (cfg : Config) (ec : Int) (l : List Nat)
    (h : ∀ q ∈ l, (q : Int) ≠ cfg.errorAfterPagesBugCacheSum) :
    (l.map fun (q : Nat) => retriesAt cfg ec (q : Int)).sum = 0 := by
  induction l with
  | nil => simp
  | cons a l ih =>
    rw [List.map_cons, List.sum_cons, retriesAt_of_ne cfg ec a (h a (by simp)),
      ih fun q hq => h q (by simp [hq])]

theorem retriesAt_after_sum (cfg : Config) (ec : Int) (l : List Nat) (k : Nat) (hk : k ∉ l) :
    retriesAt cfg (ec + ((l.map fun (q : Nat) => retriesAt cfg ec (q : Int)).sum : Nat)) (k : Int)
      = retriesAt cfg ec (k : Int) := by
  by_cases h : (k : Int) = cfg.errorAfterPagesBugCacheSum
  · have hz := sum_retriesAt_of_ne cfg ec l (by
      intro q hq hqe
      have : (q : Int) = (k : Int) := hqe.trans h.symm
      have : q = k := by exact_mod_cast this
      exact hk (this ▸ hq))
    rw [hz]
    simp
  · rw [retriesAt_of_ne cfg _ _ h, retriesAt_of_ne cfg _ _ h]

/-- A run in which no page needs more than `R` retries: every page is fetched and streamed, in
order, and the function returns `nil`. -/
theorem run_ok (cfg : Config) (R : Nat) (hr : cfg.InRange) (hm1 : 1 ≤ cfg.maxPagesBugCacheSum)
    (ec : Int) (t : List Event) (fuel : Nat) (hlo : minInt ≤ ec)
    (hfuel : cfg.maxPagesBugCacheSum.toNat ≤ fuel)
    (hall : ∀ q : Nat, (q : Int) < cfg.maxPagesBugCacheSum → retriesAt cfg ec (q : Int) ≤ R) :
    listLoop cfg R fuel 0 ⟨ec, t⟩
      = some (ListOutcome.returned none,
          ⟨ec + (((List.range' 0 cfg.maxPagesBugCacheSum.toNat).map
              fun (q : Nat) => retriesAt cfg ec (q : Int)).sum : Nat),
            t ++ (List.range' 0 cfg.maxPagesBugCacheSum.toNat).flatMap
              fun (q : Nat) => pageEvents cfg (q : Int) (retriesAt cfg ec (q : Int))⟩) := by
  obtain ⟨k, hk⟩ : ∃ k : Nat, cfg.maxPagesBugCacheSum.toNat = k + 1 :=
    ⟨cfg.maxPagesBugCacheSum.toNat - 1, by omega⟩
  obtain ⟨f, hf⟩ : ∃ f : Nat, fuel = (f + 1) + k := ⟨fuel - (k + 1), by omega⟩
  have hpre := loop_iterate cfg R hr k 0 ec t (f + 1) hlo (by push_cast; omega)
    (fun q _ h2 => hall q (by omega))
  have hnot : k ∉ List.range' 0 k := by
    intro h
    have := (List.mem_range'_1.mp h).2
    omega
  have hlast := loop_step_last cfg R f ((0 : Nat) + (k : Nat) : Int)
    (ec + (((List.range' 0 k).map fun (q : Nat) => retriesAt cfg ec (q : Int)).sum : Nat))
    (t ++ (List.range' 0 k).flatMap
      fun (q : Nat) => pageEvents cfg (q : Int) (retriesAt cfg ec (q : Int)))
    (by push_cast; omega) (by push_cast; omega) hr (by omega)
    (by
      have := retriesAt_after_sum cfg ec (List.range' 0 k) k hnot
      simp only [Nat.cast_zero, zero_add] at this ⊢
      rw [this]
      exact hall k (by omega))
  have hsame := retriesAt_after_sum cfg ec (List.range' 0 k) k hnot
  simp only [Nat.cast_zero, zero_add] at hpre hlast hsame
  rw [hf, hpre, hlast, hsame, hk, List.range'_concat]
  simp only [List.map_append, List.sum_append, List.flatMap_append, List.map_cons, List.map_nil,
    List.sum_cons, List.sum_nil, List.flatMap_cons, List.flatMap_nil, List.append_nil,
    List.append_assoc, Nat.cast_add, add_assoc, one_mul, zero_add, add_zero]

/-- A run in which the failing page `k` needs more than `R` retries: the pages before it are
fetched and streamed, page `k` is attempted `R + 1` times and the retriable error is
returned. -/
theorem run_fail (cfg : Config) (R : Nat) (hr : cfg.InRange) (k : Nat)
    (hk : cfg.errorAfterPagesBugCacheSum = (k : Int)) (hk2 : (k : Int) < cfg.maxPagesBugCacheSum)
    (ec : Int) (t : List Event) (fuel : Nat) (hlo : minInt ≤ ec) (hfuel : k + 1 ≤ fuel)
    (hn : R < retriesAt cfg ec (k : Int)) :
    listLoop cfg R fuel 0 ⟨ec, t⟩
      = some (ListOutcome.returned (some cfg.retriableErrorString),
          ⟨ec + (R : Int) + 1,
            t ++ ((List.range' 0 k).flatMap fun (q : Nat) => pageEvents cfg (q : Int) 0) ++
              List.replicate (R + 1)
                (Event.fetch (k : Int) (some cfg.retriableErrorString))⟩) := by
  obtain ⟨f, hf⟩ : ∃ f : Nat, fuel = (f + 1) + k := ⟨fuel - (k + 1), by omega⟩
  have hne : ∀ q ∈ List.range' 0 k, (q : Int) ≠ cfg.errorAfterPagesBugCacheSum := by
    intro q hq
    have := (List.mem_range'_1.mp hq).2
    rw [hk]
    omega
  have hpre := loop_iterate cfg R hr k 0 ec t (f + 1) hlo (by push_cast; omega)
    (fun q h1 h2 => by
      rw [retriesAt_of_ne cfg ec q (hne q (List.mem_range'_1.mpr ⟨h1, h2⟩))]
      omega)
  have hflat : (List.range' 0 k).flatMap
        (fun (q : Nat) => pageEvents cfg (q : Int) (retriesAt cfg ec (q : Int)))
      = (List.range' 0 k).flatMap (fun (q : Nat) => pageEvents cfg (q : Int) 0) :=
    List.flatMap_congr fun q hq => by rw [retriesAt_of_ne cfg ec q (hne q hq)]
  rw [sum_retriesAt_of_ne cfg ec _ hne, hflat] at hpre
  simp only [Nat.cast_zero, zero_add, add_zero] at hpre
  rw [hf, hpre, loop_step_fail cfg R f (k : Int) ec _ (by omega) hr hlo hn]

/-! ## What a trace shows -/

theorem streamed_append (a b : List Event) : streamed (a ++ b) = streamed a ++ streamed b := by
  simp [streamed]

theorem streamed_replicate_fetch (n : Nat) (q : Int) (e : Option String) :
    streamed (List.replicate n (Event.fetch q e)) = [] := by
  simp [streamed, List.filterMap_replicate_of_none]

theorem streamed_map_stream (l : List ItemBugCacheSum) : streamed (l.map Event.stream) = l := by
  induction l with
  | nil => rfl
  | cons a l ih =>
    simp only [streamed, List.map_cons, List.filterMap_cons] at ih ⊢
    rw [ih]

theorem streamed_pageEvents (cfg : Config) (q : Int) (n : Nat) :
    streamed (pageEvents cfg q n) = pageItems cfg q := by
  rw [pageEvents, streamed_append, streamed_append, streamed_replicate_fetch,
    streamed_map_stream]
  simp [streamed]

theorem streamed_flatMap_pageEvents (cfg : Config) (n : Nat → Nat) (l : List Nat) :
    streamed (l.flatMap fun (q : Nat) => pageEvents cfg (q : Int) (n q))
      = l.flatMap fun (q : Nat) => pageItems cfg (q : Int) := by
  induction l with
  | nil => rfl
  | cons a l ih =>
    rw [List.flatMap_cons, streamed_append, streamed_pageEvents, ih, List.flatMap_cons]

theorem length_pagesItems (cfg : Config) (n : Nat) :
    (pagesItems cfg n).length = n * cfg.pageSize.toNat := by
  induction n with
  | zero => simp [pagesItems]
  | succ n ih =>
    unfold pagesItems at ih ⊢
    rw [List.range_succ, List.flatMap_append, List.length_append, ih]
    simp [length_pageItems, Nat.succ_mul]

theorem fetches_append (a b : List Event) : fetches (a ++ b) = fetches a ++ fetches b := by
  simp [fetches]

theorem fetches_replicate_fetch (n : Nat) (q : Int) (e : Option String) :
    fetches (List.replicate n (Event.fetch q e)) = List.replicate n (q, e) := by
  induction n with
  | zero => rfl
  | succ n ih =>
    simp only [fetches, List.replicate_succ, List.filterMap_cons] at ih ⊢
    rw [ih]

theorem fetches_map_stream (l : List ItemBugCacheSum) : fetches (l.map Event.stream) = [] := by
  induction l with
  | nil => rfl
  | cons a l ih =>
    simp only [fetches, List.map_cons, List.filterMap_cons] at ih ⊢
    rw [ih]

theorem fetches_pageEvents (cfg : Config) (q : Int) (n : Nat) :
    fetches (pageEvents cfg q n)
      = List.replicate n (q, some cfg.retriableErrorString) ++ [(q, none)] := by
  rw [pageEvents, fetches_append, fetches_append, fetches_replicate_fetch, fetches_map_stream]
  simp [fetches]

theorem pagesItems_eq_range' (cfg : Config) (n : Nat) :
    pagesItems cfg n = (List.range' 0 n).flatMap fun (q : Nat) => pageItems cfg (q : Int) := by
  rw [pagesItems, List.range_eq_range']

theorem page_of_mem_pagesItems (cfg : Config) (n : Nat) (item : ItemBugCacheSum)
    (h : item ∈ pagesItems cfg n) : ∃ q : Nat, q < n ∧ item.Page = (q : Int) := by
  simp only [pagesItems, pageItems, List.mem_flatMap, List.mem_range, List.mem_map] at h
  obtain ⟨q, hq, i, _, hi⟩ := h
  exact ⟨q, hq, by rw [← hi]; rfl⟩

/-! ## The coded scenario -/

theorem codedConfig_inRange (retriable : String) : (codedConfig retriable).InRange := by
  simp only [Config.InRange, IsInt, codedConfig]
  decide

theorem retriesAt_coded (retriable : String) (ec q : Int) :
    retriesAt (codedConfig retriable) ec q = if q = 3 then (5 - ec).toNat else 0 := rfl

theorem length_pageItems_coded (retriable : String) (q : Int) :
    (pageItems (codedConfig retriable) q).length = 2500 := by
  rw [length_pageItems]
  rfl

/-! ## Claims on getPageBugCacheSum -/

/-- C1: for every value of the failure counter and every configuration (also one whose
failing page is page `maxPages`), the call for page `maxPages` fails with the error whose
message is "invalid page", returns no items and no paging response, and leaves the counter
as it was. -/
theorem C1_maxPages_invalid (cfg : Config) (errorCount : Int) :
    getPageBugCacheSum cfg cfg.maxPagesBugCacheSum errorCount
      = ({ items := [], resp := none, err := some "invalid page" }, errorCount) :=
  getPage_invalid cfg errorCount

/-- C2: with `failureCount >= 0` and the failing page different from `maxPages`, starting from
`errorCount = 0`, in every sequence `ps` of requests the request at position `j`, when it is for
the failing page and is the `k`-th such request, fails with the retriable error if and only if
`k <= failureCount`; when `k > failureCount` it succeeds with a paging response. -/
theorem C2_kth_request_fails_iff (cfg : Config) (hfc : 0 ≤ cfg.failureCountBugCacheSum)
    (hmax : cfg.failureCountBugCacheSum ≤ maxInt)
    (hne : cfg.errorAfterPagesBugCacheSum ≠ cfg.maxPagesBugCacheSum)
    (ps : List Int) (j : Nat) (hj : j < ps.length)
    (hp : ps[j] = cfg.errorAfterPagesBugCacheSum) :
    ∃ r, (getPages cfg ps 0)[j]? = some r ∧
      (r.err = some cfg.retriableErrorString ↔
        ((ps.take (j + 1)).count cfg.errorAfterPagesBugCacheSum : Int)
          ≤ cfg.failureCountBugCacheSum) ∧
      (cfg.failureCountBugCacheSum
          < ((ps.take (j + 1)).count cfg.errorAfterPagesBugCacheSum : Int) →
        r.err = none ∧ r.resp ≠ none) := by
  have _ := hfc
  obtain ⟨r, hr, h1, h2⟩ := getPages_errorAfterPage cfg hmax hne ps 0 j (le_refl 0) hj hp
  simp only [zero_add] at h1 h2
  refine ⟨r, hr, ⟨?_, ?_⟩, ?_⟩
  · intro he
    by_contra hlt
    have := (h2 (by omega)).1
    rw [this] at he
    exact absurd he (by simp)
  · intro hk
    rw [h1 hk]
  · intro hk
    obtain ⟨ha, hb⟩ := h2 hk
    exact ⟨ha, by simp [hb]⟩

/-- Witness of C2: in the coded scenario the sixth request for page 3, with a request for page 0
in between, is the first that does not fail. -/
theorem C2_kth_request_fails_iff_witness :
    ∃ r, (getPages (codedConfig "retriable") [3, 0, 3, 3, 3, 3, 3] 0)[6]? = some r ∧
      (r.err = some (codedConfig "retriable").retriableErrorString ↔
        ((([3, 0, 3, 3, 3, 3, 3] : List Int).take (6 + 1)).count
          (codedConfig "retriable").errorAfterPagesBugCacheSum : Int)
          ≤ (codedConfig "retriable").failureCountBugCacheSum) ∧
      ((codedConfig "retriable").failureCountBugCacheSum
          < ((([3, 0, 3, 3, 3, 3, 3] : List Int).take (6 + 1)).count
              (codedConfig "retriable").errorAfterPagesBugCacheSum : Int) →
        r.err = none ∧ r.resp ≠ none) :=
  C2_kth_request_fails_iff (codedConfig "retriable") (by decide) (by decide) (by decide)
    [3, 0, 3, 3, 3, 3, 3] 6 (by decide) (by decide)

/-- C3: for every page index `p` and every state in which the call succeeds, with
`0 <= pageSize` (a Go `int`), the returned list has exactly `pageSize` items and, for every `i`
below `pageSize`, item `i` has `Id` made of the characters of the decimal rendering of `p`
(base-ten digits, most significant first, a minus sign for a negative number), then the
character `_`, then the decimal rendering of `i`, and has `Page` equal to `p`. -/
theorem C3_items_of_page (cfg : Config) (p errorCount : Int) (hps : 0 ≤ cfg.pageSize)
    (hmax : cfg.pageSize ≤ maxInt)
    (hok : (getPageBugCacheSum cfg p errorCount).1.err = none) :
    ((getPageBugCacheSum cfg p errorCount).1.items.length : Int) = cfg.pageSize ∧
      ∀ i : Nat, (i : Int) < cfg.pageSize →
        ∃ item, (getPageBugCacheSum cfg p errorCount).1.items[i]? = some item ∧
          item.Id.toList = decimalInt p ++ '_' :: decimalInt (i : Int) ∧ item.Page = p := by
  obtain ⟨hp, he⟩ := (getPage_err_none_iff cfg p errorCount).mp hok
  rw [getPage_ok cfg p errorCount hp he, itemLoop_pageItems cfg p hmax]
  refine ⟨?_, ?_⟩
  · simp only [length_pageItems]
    omega
  · intro i hi
    exact ⟨newItem p (i : Int), getElem?_pageItems cfg p i (by omega),
      newItem_Id_toList p (i : Int), rfl⟩

/-- Witness of C3: the last item of page 2 of the coded scenario, asked for in the initial
state, has the identifier `2_2499`. -/
theorem C3_items_of_page_witness :
    ∃ item, (getPageBugCacheSum (codedConfig "retriable") 2 0).1.items[2499]? = some item ∧
      item.Id = "2_2499" ∧ item.Page = 2 := by
  obtain ⟨item, hget, hid, hpage⟩ :=
    (C3_items_of_page (codedConfig "retriable") 2 0 (by decide) (by decide) (by decide)).2
      2499 (by decide)
  refine ⟨item, hget, ?_, hpage⟩
  have hlit : decimalInt 2 ++ '_' :: decimalInt ((2499 : Nat) : Int) = "2_2499".toList := by
    norm_num [decimalInt, decimalNat]
  exact String.ext (hid.trans hlit)

/-- C4, as stated, fails: in the coded scenario the call for page `-2` succeeds and returns the
no-more-pages sentinel although `-2 + 1` is not `maxPages`. -/
theorem C4_counterexample :
    (getPageBugCacheSum (codedConfig "retriable") (-2) 0).1.err = none ∧
      (getPageBugCacheSum (codedConfig "retriable") (-2) 0).1.resp
        = some { NextPage := noMorePagesBugCacheSum } ∧
      ¬ ((-2 : Int) + 1 = (codedConfig "retriable").maxPagesBugCacheSum) := by
  decide

/-- C4, amended: for every page index `p` (a 64-bit Go `int`) for which the call succeeds, a
paging response is returned; when `p` is below the largest `int`, `NextPage` is the sentinel
`-1` if and only if `p + 1 == maxPages` or `p == -2`, and is `p + 1` whenever
`p + 1 != maxPages`; when `p` is the largest `int`, `p + 1` has wrapped to the smallest. -/
theorem C4_nextPage (cfg : Config) (p errorCount : Int) (hp : IsInt p)
    (hok : (getPageBugCacheSum cfg p errorCount).1.err = none) :
    ∃ r, (getPageBugCacheSum cfg p errorCount).1.resp = some r ∧
      (p < maxInt →
        (r.NextPage = noMorePagesBugCacheSum ↔ (p + 1 = cfg.maxPagesBugCacheSum ∨ p = -2)) ∧
          (p + 1 ≠ cfg.maxPagesBugCacheSum → r.NextPage = p + 1)) ∧
      (p = maxInt →
        r.NextPage = if cfg.maxPagesBugCacheSum = minInt then noMorePagesBugCacheSum
          else minInt) := by
  obtain ⟨hpm, he⟩ := (getPage_err_none_iff cfg p errorCount).mp hok
  rw [getPage_ok cfg p errorCount hpm he]
  refine ⟨_, rfl, ?_, ?_⟩
  · intro hlt
    have hw : wrapInt (p + 1) = p + 1 := wrapInt_succ hp.1 hlt
    simp only [nextOf, hw, noMorePagesBugCacheSum]
    constructor
    · constructor
      · intro h
        split at h
        · left; assumption
        · right; omega
      · rintro (h | h)
        · simp [h]
        · subst h
          split <;> rfl
    · intro h
      simp [h]
  · intro h
    subst h
    have hw : wrapInt (maxInt + 1) = minInt := by decide
    simp only [nextOf, hw]
    by_cases hm : cfg.maxPagesBugCacheSum = minInt
    · simp [hm]
    · have hm2 : ¬ (minInt = cfg.maxPagesBugCacheSum) := fun h => hm h.symm
      simp [hm, hm2]

/-- Witness of C4: page 3 of the coded scenario once the failure budget is used up. -/
theorem C4_nextPage_witness :
    ∃ r, (getPageBugCacheSum (codedConfig "retriable") 3 5).1.resp = some r ∧
      ((3 : Int) < maxInt →
        (r.NextPage = noMorePagesBugCacheSum ↔
            ((3 : Int) + 1 = (codedConfig "retriable").maxPagesBugCacheSum ∨ (3 : Int) = -2)) ∧
          ((3 : Int) + 1 ≠ (codedConfig "retriable").maxPagesBugCacheSum → r.NextPage = 3 + 1)) ∧
      ((3 : Int) = maxInt →
        r.NextPage = if (codedConfig "retriable").maxPagesBugCacheSum = minInt
          then noMorePagesBugCacheSum else minInt) :=
  C4_nextPage (codedConfig "retriable") 3 5 (by decide) (by decide)

/-- C8: for every page `p` with `0 <= p < maxPages` and every two counter values such that
either `p` is not the failing page or the failure budget is used up in both, the two calls
both succeed, return the same item list and the same paging response, and each leaves the
counter unchanged. -/
theorem C8_deterministic (cfg : Config) (p ec1 ec2 : Int) (h0 : 0 ≤ p)
    (h1 : p < cfg.maxPagesBugCacheSum)
    (h : p ≠ cfg.errorAfterPagesBugCacheSum ∨
      (cfg.failureCountBugCacheSum ≤ ec1 ∧ cfg.failureCountBugCacheSum ≤ ec2)) :
    (getPageBugCacheSum cfg p ec1).1.err = none ∧
      (getPageBugCacheSum cfg p ec2).1.err = none ∧
      (getPageBugCacheSum cfg p ec1).1.items = (getPageBugCacheSum cfg p ec2).1.items ∧
      (getPageBugCacheSum cfg p ec1).1.resp = (getPageBugCacheSum cfg p ec2).1.resp ∧
      (getPageBugCacheSum cfg p ec1).1.resp ≠ none ∧
      (getPageBugCacheSum cfg p ec1).2 = ec1 ∧ (getPageBugCacheSum cfg p ec2).2 = ec2 := by
  have _ := h0
  have hpm : p ≠ cfg.maxPagesBugCacheSum := by omega
  have e1 : ¬ (p = cfg.errorAfterPagesBugCacheSum ∧ ec1 < cfg.failureCountBugCacheSum) := by
    rcases h with h | h
    · exact fun c => h c.1
    · exact fun c => by omega
  have e2 : ¬ (p = cfg.errorAfterPagesBugCacheSum ∧ ec2 < cfg.failureCountBugCacheSum) := by
    rcases h with h | h
    · exact fun c => h c.1
    · exact fun c => by omega
  rw [getPage_ok cfg p ec1 hpm e1, getPage_ok cfg p ec2 hpm e2]
  simp

/-- Witness of C8: page 3 of the coded scenario with the budget used up (counter 5 and 9). -/
theorem C8_deterministic_witness :
    (getPageBugCacheSum (codedConfig "retriable") 3 5).1.err = none ∧
      (getPageBugCacheSum (codedConfig "retriable") 3 9).1.err = none ∧
      (getPageBugCacheSum (codedConfig "retriable") 3 5).1.items
        = (getPageBugCacheSum (codedConfig "retriable") 3 9).1.items ∧
      (getPageBugCacheSum (codedConfig "retriable") 3 5).1.resp
        = (getPageBugCacheSum (codedConfig "retriable") 3 9).1.resp ∧
      (getPageBugCacheSum (codedConfig "retriable") 3 5).1.resp ≠ none ∧
      (getPageBugCacheSum (codedConfig "retriable") 3 5).2 = 5 ∧
      (getPageBugCacheSum (codedConfig "retriable") 3 9).2 = 9 :=
  C8_deterministic (codedConfig "retriable") 3 5 9 (by decide) (by decide)
    (Or.inr ⟨by decide, by decide⟩)

/-- C9: from every state with `0 <= errorCount <= failureCount` and for every page index, the
call leaves the counter unchanged or increased by exactly 1, increases it only when the page
is the failing page and the retriable error is returned, and ends with
`0 <= errorCount <= failureCount`; when `errorCount == failureCount` the call leaves the
counter unchanged and, for the failing page (different from `maxPages`), succeeds. -/
theorem C9_counter_invariant (cfg : Config) (p errorCount : Int)
    (hmax : cfg.failureCountBugCacheSum ≤ maxInt)
    (h0 : 0 ≤ errorCount) (h1 : errorCount ≤ cfg.failureCountBugCacheSum) :
    ((getPageBugCacheSum cfg p errorCount).2 = errorCount ∨
        (getPageBugCacheSum cfg p errorCount).2 = errorCount + 1) ∧
      ((getPageBugCacheSum cfg p errorCount).2 ≠ errorCount →
        p = cfg.errorAfterPagesBugCacheSum ∧
          (getPageBugCacheSum cfg p errorCount).1.err = some cfg.retriableErrorString) ∧
      0 ≤ (getPageBugCacheSum cfg p errorCount).2 ∧
      (getPageBugCacheSum cfg p errorCount).2 ≤ cfg.failureCountBugCacheSum ∧
      (errorCount = cfg.failureCountBugCacheSum →
        (getPageBugCacheSum cfg p errorCount).2 = errorCount ∧
          (p = cfg.errorAfterPagesBugCacheSum →
            cfg.errorAfterPagesBugCacheSum ≠ cfg.maxPagesBugCacheSum →
            (getPageBugCacheSum cfg p errorCount).1.err = none ∧
              (getPageBugCacheSum cfg p errorCount).1.resp ≠ none)) := by
  by_cases hpm : p = cfg.maxPagesBugCacheSum
  · subst hpm
    rw [getPage_invalid]
    refine ⟨Or.inl rfl, fun h => absurd rfl h, h0, h1, fun _ => ⟨rfl, fun a b => absurd a.symm b⟩⟩
  · by_cases he : p = cfg.errorAfterPagesBugCacheSum ∧ errorCount < cfg.failureCountBugCacheSum
    · rw [getPage_retriable cfg p errorCount hpm he.1 he.2,
        wrapInt_succ (by unfold minInt; omega) (by omega)]
      refine ⟨Or.inr rfl, fun _ => ⟨he.1, rfl⟩, by omega, by omega, fun h => ?_⟩
      omega
    · rw [getPage_ok cfg p errorCount hpm he]
      refine ⟨Or.inl rfl, fun h => absurd rfl h, h0, h1, fun _ => ⟨rfl, fun _ _ => ⟨rfl, ?_⟩⟩⟩
      simp

/-- Witness of C9: the fifth failure of page 3 in the coded scenario. -/
theorem C9_counter_invariant_witness :
    (getPageBugCacheSum (codedConfig "retriable") 3 4).2 = 4 + 1 ∧
      (getPageBugCacheSum (codedConfig "retriable") 3 4).2
        ≤ (codedConfig "retriable").failureCountBugCacheSum :=
  have h := C9_counter_invariant (codedConfig "retriable") 3 4 (by decide) (by decide)
    (by decide)
  ⟨h.1.resolve_left (by decide), h.2.2.2.1⟩

/-- C10, as stated, fails: in the coded scenario the call for page `2 ^ 53` succeeds and its
first item has amount `10 * 2 ^ 53`, not `10 * 2 ^ 53 + 5`. -/
theorem C10_counterexample :
    (getPageBugCacheSum (codedConfig "retriable") (2 ^ 53) 0).1.err = none ∧
      ∃ item, (getPageBugCacheSum (codedConfig "retriable") (2 ^ 53) 0).1.items[0]? = some item ∧
        item.Amount ≠ 10 * (((2 ^ 53 : Int) : ℚ) + 1 / 2) ∧
        item.Amount ≠ 10 * ((2 ^ 53 : Int) : ℚ) + 5 := by
  have hp : (2 ^ 53 : Int) ≠ (codedConfig "retriable").maxPagesBugCacheSum := by decide
  have he : ¬ ((2 ^ 53 : Int) = (codedConfig "retriable").errorAfterPagesBugCacheSum ∧
      (0 : Int) < (codedConfig "retriable").failureCountBugCacheSum) := by decide
  rw [getPage_ok _ _ _ hp he, itemLoop_pageItems _ _ (by decide)]
  have h0 : 0 < (codedConfig "retriable").pageSize.toNat := by
    show 0 < (2500 : Int).toNat
    simp
  have hget := getElem?_pageItems (codedConfig "retriable") (2 ^ 53) 0 h0
  dsimp only
  rw [hget]
  refine ⟨rfl, newItem (2 ^ 53) ((0 : Nat) : Int), rfl, ?_, ?_⟩
  · rw [amount_two_pow_53]
    norm_num
  · rw [amount_two_pow_53]
    norm_num

/-- C10, amended: for every page index `p` with `|10 * p + 5| < 2 ^ 53` for which the call
succeeds, every returned item has `Amount` equal to `10.0 * (p + 0.5)`, which is exactly
`10 * p + 5`. -/
theorem C10_amount (cfg : Config) (p errorCount : Int) (hb : |10 * p + 5| < 2 ^ 53)
    (hok : (getPageBugCacheSum cfg p errorCount).1.err = none) :
    ∀ item ∈ (getPageBugCacheSum cfg p errorCount).1.items,
      item.Amount = 10 * ((p : ℚ) + 1 / 2) ∧ item.Amount = 10 * (p : ℚ) + 5 := by
  obtain ⟨hp, he⟩ := (getPage_err_none_iff cfg p errorCount).mp hok
  rw [getPage_ok cfg p errorCount hp he]
  intro item hmem
  rcases mem_itemLoop p cfg.pageSize _ _ _ item hmem with h | ⟨k, hk⟩
  · simp at h
  · subst hk
    rw [amount_exact p k hb]
    exact ⟨by ring, rfl⟩

/-- Witness of C10: the first item of page 3 of the coded scenario, once the failure budget is
used up, carries the amount 35. -/
theorem C10_amount_witness :
    ∃ item, (getPageBugCacheSum (codedConfig "retriable") 3 5).1.items[0]? = some item ∧
      item.Amount = 10 * (((3 : Int) : ℚ) + 1 / 2) ∧ item.Amount = 10 * ((3 : Int) : ℚ) + 5 := by
  have h0 : 0 < (codedConfig "retriable").pageSize.toNat := by
    show 0 < (2500 : Int).toNat
    simp
  have hget : (getPageBugCacheSum (codedConfig "retriable") 3 5).1.items[0]?
      = some (newItem 3 ((0 : Nat) : Int)) := by
    rw [getPage_ok _ _ _ (by decide) (by decide), itemLoop_pageItems _ _ (by decide)]
    dsimp only
    rw [getElem?_pageItems (codedConfig "retriable") 3 0 h0]
  exact ⟨_, hget, C10_amount (codedConfig "retriable") 3 5 (by norm_num) (by decide) _
    (List.getElem?_mem hget)⟩

/-! ## Claims on listBugCacheSumFunction -/

/-- C5, as stated, fails: in the coded scenario with `pageSize = 0` and a policy that permits no
retry, the function returns the retriable error although the records streamed (none) are
exactly the items of pages 0 to 3 (none). -/
theorem C5_counterexample :
    (listBugCacheSumFunction { codedConfig "retriable" with pageSize := 0 } 0 4 ⟨0, []⟩).map
        (fun r => (r.1, streamed r.2.trace))
      = some (ListOutcome.returned (some "retriable"),
          pagesItems { codedConfig "retriable" with pageSize := 0 } 4) := by
  decide

/-- C5, amended: for every retry budget `R`, every configuration of 64-bit ints with
`maxPages >= 1`, `pageSize >= 0`, `failureCount >= 0` and every starting counter, the function
returns (given `maxPages` iterations); when it returns no error the records streamed are
exactly the items of pages `0 .. maxPages - 1` in page order and item order; when it returns an
error the last fetch is the failed fetch of a page `k < maxPages`, which returned that error,
and the records streamed are exactly the items of pages `0 .. k - 1`; and when `pageSize >= 1`
it returns no error if and only if the records streamed are those of all pages. -/
theorem C5_complete_or_truncated (cfg : Config) (R fuel : Nat) (errorCount : Int)
    (hr : cfg.InRange) (hec : IsInt errorCount) (hm : 1 ≤ cfg.maxPagesBugCacheSum)
    (hps : 0 ≤ cfg.pageSize) (hfc : 0 ≤ cfg.failureCountBugCacheSum)
    (hfuel : cfg.maxPagesBugCacheSum.toNat ≤ fuel) :
    ∃ out w, listBugCacheSumFunction cfg R fuel ⟨errorCount, []⟩ = some (out, w) ∧
      (out = ListOutcome.returned none →
        streamed w.trace = pagesItems cfg cfg.maxPagesBugCacheSum.toNat) ∧
      (∀ e, out = ListOutcome.returned (some e) →
        ∃ k : Nat, (k : Int) < cfg.maxPagesBugCacheSum ∧
          (fetches w.trace).getLast? = some ((k : Int), some e) ∧
          streamed w.trace = pagesItems cfg k) ∧
      out ≠ ListOutcome.nilDeref ∧
      (1 ≤ cfg.pageSize →
        (out = ListOutcome.returned none ↔
          streamed w.trace = pagesItems cfg cfg.maxPagesBugCacheSum.toNat)) := by
  have _ := hps
  have _ := hfc
  by_cases hfail : ∃ k : Nat, cfg.errorAfterPagesBugCacheSum = (k : Int) ∧
      (k : Int) < cfg.maxPagesBugCacheSum ∧ R < retriesAt cfg errorCount (k : Int)
  · obtain ⟨k, hk, hk2, hn⟩ := hfail
    have hrun := run_fail cfg R hr k hk hk2 errorCount [] fuel hec.1 (by omega) hn
    have hstr : streamed ([] ++ ((List.range' 0 k).flatMap
          fun (q : Nat) => pageEvents cfg (q : Int) 0) ++
        List.replicate (R + 1) (Event.fetch (k : Int) (some cfg.retriableErrorString)))
        = pagesItems cfg k := by
      rw [streamed_append, streamed_append, streamed_replicate_fetch,
        streamed_flatMap_pageEvents cfg (fun _ => 0), pagesItems_eq_range']
      simp [streamed]
    refine ⟨_, _, hrun, ?_, ?_, ?_, ?_⟩
    · intro h; exact absurd h (by simp)
    · intro e he
      have he' : cfg.retriableErrorString = e := by simpa using he
      refine ⟨k, hk2, ?_, hstr⟩
      rw [fetches_append, fetches_replicate_fetch, List.replicate_succ', ← List.append_assoc,
        List.getLast?_append, he']
      simp
    · simp
    · intro hps1
      constructor
      · intro h; exact absurd h (by simp)
      · intro h
        exfalso
        have hlen := congrArg List.length (hstr.symm.trans h)
        rw [length_pagesItems, length_pagesItems] at hlen
        have h1 : k < cfg.maxPagesBugCacheSum.toNat := by omega
        have h2 : 0 < cfg.pageSize.toNat := by omega
        have := Nat.mul_lt_mul_of_pos_right h1 h2
        omega
  · have hall : ∀ q : Nat, (q : Int) < cfg.maxPagesBugCacheSum →
        retriesAt cfg errorCount (q : Int) ≤ R := by
      intro q hq
      by_contra hgt
      by_cases hqe : cfg.errorAfterPagesBugCacheSum = (q : Int)
      · exact hfail ⟨q, hqe, hq, by omega⟩
      · rw [retriesAt_of_ne cfg errorCount q (fun h => hqe h.symm)] at hgt
        omega
    have hrun := run_ok cfg R hr hm errorCount [] fuel hec.1 hfuel hall
    have hstr : streamed ([] ++ (List.range' 0 cfg.maxPagesBugCacheSum.toNat).flatMap
          fun (q : Nat) => pageEvents cfg (q : Int) (retriesAt cfg errorCount (q : Int)))
        = pagesItems cfg cfg.maxPagesBugCacheSum.toNat := by
      rw [List.nil_append,
        streamed_flatMap_pageEvents cfg (fun q => retriesAt cfg errorCount (q : Int)),
        pagesItems_eq_range']
    refine ⟨_, _, hrun, fun _ => hstr, ?_, by simp, fun _ => ⟨fun _ => hstr, fun _ => rfl⟩⟩
    intro e he
    exact absurd he (by simp)

/-- Witness of C5: the coded scenario under a policy that permits three retries. -/
theorem C5_complete_or_truncated_witness :
    ∃ out w, listBugCacheSumFunction (codedConfig "retriable") 3 4 ⟨0, []⟩ = some (out, w) ∧
      (out = ListOutcome.returned none →
        streamed w.trace
          = pagesItems (codedConfig "retriable")
              (codedConfig "retriable").maxPagesBugCacheSum.toNat) ∧
      (∀ e, out = ListOutcome.returned (some e) →
        ∃ k : Nat, (k : Int) < (codedConfig "retriable").maxPagesBugCacheSum ∧
          (fetches w.trace).getLast? = some ((k : Int), some e) ∧
          streamed w.trace = pagesItems (codedConfig "retriable") k) ∧
      out ≠ ListOutcome.nilDeref ∧
      (1 ≤ (codedConfig "retriable").pageSize →
        (out = ListOutcome.returned none ↔
          streamed w.trace
            = pagesItems (codedConfig "retriable")
                (codedConfig "retriable").maxPagesBugCacheSum.toNat)) :=
  C5_complete_or_truncated (codedConfig "retriable") 3 4 0 (by decide) (by decide) (by decide)
    (by decide) (by decide) (by decide)

/-- C6: in the coded scenario, from `errorCount = 0` and under a policy that permits at least 5
retries, the function returns no error; page 3 is fetched six times, the sixth attempt being
the successful one; the 7500 records of pages 0 to 2 are streamed before the first attempt on
page 3 and the 2500 records of page 3 after the sixth, 10000 records in total. -/
theorem C6_coded_run_completes (retriable : String) (R fuel : Nat) (hR : 5 ≤ R)
    (hfuel : 4 ≤ fuel) :
    ∃ w, listBugCacheSumFunction (codedConfig retriable) R fuel ⟨0, []⟩
        = some (ListOutcome.returned none, w) ∧
      w.errorCount = 5 ∧
      fetches w.trace
        = [(0, none), (1, none), (2, none), (3, some retriable), (3, some retriable),
            (3, some retriable), (3, some retriable), (3, some retriable), (3, none)] ∧
      w.trace
        = (pageEvents (codedConfig retriable) 0 0 ++ pageEvents (codedConfig retriable) 1 0 ++
              pageEvents (codedConfig retriable) 2 0) ++
            (List.replicate 5 (Event.fetch 3 (some retriable)) ++ [Event.fetch 3 none]) ++
            (pageItems (codedConfig retriable) 3).map Event.stream ∧
      streamed (pageEvents (codedConfig retriable) 0 0 ++ pageEvents (codedConfig retriable) 1 0 ++
          pageEvents (codedConfig retriable) 2 0) = pagesItems (codedConfig retriable) 3 ∧
      (pagesItems (codedConfig retriable) 3).length = 7500 ∧
      (pageItems (codedConfig retriable) 3).length = 2500 ∧
      streamed w.trace = pagesItems (codedConfig retriable) 4 ∧
      (streamed w.trace).length = 10000 := by
  have hall : ∀ q : Nat, (q : Int) < (codedConfig retriable).maxPagesBugCacheSum →
      retriesAt (codedConfig retriable) 0 (q : Int) ≤ R := by
    intro q _
    rw [retriesAt_coded]
    split
    · simp; omega
    · omega
  have hrun := run_ok (codedConfig retriable) R (codedConfig_inRange retriable)
    (show (1 : Int) ≤ 4 by decide) 0 [] fuel (by decide) (by simpa [codedConfig] using hfuel) hall
  have h4 : (codedConfig retriable).maxPagesBugCacheSum.toNat = 4 := rfl
  have hl : List.range' 0 4 = [0, 1, 2, 3] := rfl
  rw [h4, hl] at hrun
  simp only [List.map_cons, List.map_nil, List.flatMap_cons, List.flatMap_nil, retriesAt_coded,
    List.sum_cons, List.sum_nil, List.nil_append, List.append_nil] at hrun
  norm_num at hrun
  have hstr3 : streamed (pageEvents (codedConfig retriable) 0 0 ++
      pageEvents (codedConfig retriable) 1 0 ++ pageEvents (codedConfig retriable) 2 0)
      = pagesItems (codedConfig retriable) 3 := by
    simp only [streamed_append, streamed_pageEvents, pagesItems_eq_range']
    simp [List.range']
  refine ⟨_, hrun, rfl, ?_, ?_, hstr3, ?_, length_pageItems_coded retriable 3, ?_, ?_⟩
  · simp only [fetches_append, fetches_pageEvents]
    simp [List.replicate, codedConfig]
  · simp [pageEvents, codedConfig]
  · rw [length_pagesItems]; rfl
  · simp only [streamed_append, streamed_pageEvents, pagesItems_eq_range']
    simp [List.range']
  · simp only [streamed_append, streamed_pageEvents, List.length_append, length_pageItems_coded]

/-- Witness of C6: a policy that permits exactly 5 retries. -/
theorem C6_coded_run_completes_witness :
    ∃ w, listBugCacheSumFunction (codedConfig "retriable") 5 4 ⟨0, []⟩
        = some (ListOutcome.returned none, w) ∧
      w.errorCount = 5 ∧ (streamed w.trace).length = 10000 := by
  obtain ⟨w, h1, h2, _, _, _, _, _, _, h3⟩ :=
    C6_coded_run_completes "retriable" 5 4 (by decide) (by decide)
  exact ⟨w, h1, h2, h3⟩

/-- C7: in the coded scenario, from `errorCount = 0` and under a policy that permits only 3
retries, the function returns the retriable error as `getPageBugCacheSum` produced it, after
exactly 4 calls for page 3 (all failed), having streamed exactly the 7500 records of pages 0,
1 and 2 and no record of page 3. -/
theorem C7_coded_run_truncated (retriable : String) (fuel : Nat) (hfuel : 4 ≤ fuel) :
    ∃ w, listBugCacheSumFunction (codedConfig retriable) 3 fuel ⟨0, []⟩
        = some (ListOutcome.returned (some retriable), w) ∧
      w.errorCount = 4 ∧
      fetches w.trace
        = [(0, none), (1, none), (2, none), (3, some retriable), (3, some retriable),
            (3, some retriable), (3, some retriable)] ∧
      ((fetches w.trace).filter fun f => f.1 = 3).length = 4 ∧
      streamed w.trace = pagesItems (codedConfig retriable) 3 ∧
      (streamed w.trace).length = 7500 ∧
      ∀ item ∈ streamed w.trace, item.Page ≠ 3 := by
  have hrun := run_fail (codedConfig retriable) 3 (codedConfig_inRange retriable) 3 rfl
    (show ((3 : Nat) : Int) < 4 by decide) 0 [] fuel (by decide) (by omega) (by rw [retriesAt_coded]; decide)
  have hl : List.range' 0 3 = [0, 1, 2] := rfl
  rw [hl] at hrun
  simp only [List.flatMap_cons, List.flatMap_nil, List.nil_append, List.append_nil] at hrun
  norm_num at hrun
  have hstr3 : pageItems (codedConfig retriable) 0 ++
      (pageItems (codedConfig retriable) 1 ++ pageItems (codedConfig retriable) 2)
      = pagesItems (codedConfig retriable) 3 := by
    rw [pagesItems_eq_range']
    simp [List.range']
  refine ⟨_, hrun, rfl, ?_, ?_, ?_, ?_, ?_⟩
  · simp only [fetches_append, fetches_pageEvents, fetches_replicate_fetch]
    simp [List.replicate, codedConfig]
  · simp only [fetches_append, fetches_pageEvents, fetches_replicate_fetch]
    simp [List.replicate, List.filter]
  · simp only [streamed_append, streamed_pageEvents, streamed_replicate_fetch,
      List.append_nil, List.append_assoc]
    exact hstr3
  · simp only [streamed_append, streamed_pageEvents, streamed_replicate_fetch,
      List.length_append, length_pageItems_coded, List.length_nil]
  · simp only [streamed_append, streamed_pageEvents, streamed_replicate_fetch,
      List.append_nil, List.append_assoc]
    rw [hstr3]
    intro item hmem
    obtain ⟨q, hq, hpage⟩ := page_of_mem_pagesItems _ _ item hmem
    rw [hpage]
    omega

/-- Witness of C7: four iterations are enough. -/
theorem C7_coded_run_truncated_witness :
    ∃ w, listBugCacheSumFunction (codedConfig "retriable") 3 4 ⟨0, []⟩
        = some (ListOutcome.returned (some "retriable"), w) ∧
      w.errorCount = 4 ∧ (streamed w.trace).length = 7500 := by
  obtain ⟨w, h1, h2, _, _, _, h3, _⟩ := C7_coded_run_truncated "retriable" 4 (by decide)
  exact ⟨w, h1, h2, h3⟩

/-! ## Nil results -/

theorem getPage_nil_shape (cfg : Config) (p ec : Int) :
    ((getPageBugCacheSum cfg p ec).1.err ≠ none ∧ (getPageBugCacheSum cfg p ec).1.items = [] ∧
        (getPageBugCacheSum cfg p ec).1.resp = none) ∨
      ((getPageBugCacheSum cfg p ec).1.err = none ∧
        (getPageBugCacheSum cfg p ec).1.resp ≠ none) := by
  by_cases hp : p = cfg.maxPagesBugCacheSum
  · subst hp
    rw [getPage_invalid]
    exact Or.inl ⟨by simp, rfl, rfl⟩
  · by_cases he : p = cfg.errorAfterPagesBugCacheSum ∧ ec < cfg.failureCountBugCacheSum
    · rw [getPage_retriable cfg p ec hp he.1 he.2]
      exact Or.inl ⟨by simp, rfl, rfl⟩
    · rw [getPage_ok cfg p ec hp he]
      exact Or.inr ⟨rfl, by simp⟩

theorem listPage_nil_shape (cfg : Config) (p : Int) (w : World) :
    (listPage cfg p w).1.2 = none → (listPage cfg p w).1.1.Resp ≠ none := by
  intro h
  rcases getPage_nil_shape cfg p w.errorCount with h1 | h1
  · exact absurd h h1.1
  · exact h1.2

theorem retry_nil_shape (cfg : Config) (p : Int) :
    ∀ (R : Nat) (w : World),
      (RetryHydrate (shouldRetryErrorLegacy cfg) (listPage cfg p) R w).1.2 = none →
        (RetryHydrate (shouldRetryErrorLegacy cfg) (listPage cfg p) R w).1.1.Resp ≠ none := by
  intro R
  induction R with
  | zero => intro w; exact listPage_nil_shape cfg p w
  | succ R ih =>
    intro w
    have hl := listPage_nil_shape cfg p w
    unfold RetryHydrate
    rcases hlp : listPage cfg p w with ⟨⟨resp, err⟩, w1⟩
    rw [hlp] at hl
    cases err with
    | none => exact hl
    | some e =>
      dsimp only
      split
      · exact ih w1
      · intro h; simp at h

/-- The list loop never ends in the nil dereference. -/
theorem listLoop_ne_nilDeref (cfg : Config) (R : Nat) :
    ∀ (fuel : Nat) (p : Int) (w : World) (out : ListOutcome) (w1 : World),
      listLoop cfg R fuel p w = some (out, w1) → out ≠ ListOutcome.nilDeref := by
  intro fuel
  induction fuel with
  | zero => intro p w out w1 h; simp [listLoop] at h
  | succ fuel ih =>
    intro p w out w1 h
    have hn := retry_nil_shape cfg p R w
    unfold listLoop at h
    rcases hr : RetryHydrate (shouldRetryErrorLegacy cfg) (listPage cfg p) R w with
      ⟨⟨resp, err⟩, w2⟩
    rw [hr] at h hn
    cases err with
    | some e =>
      simp only [Option.some.injEq, Prod.mk.injEq] at h
      rw [← h.1]
      simp
    | none =>
      have hresp := hn rfl
      dsimp only at h hresp
      cases hR : resp.Resp with
      | none => exact absurd hR hresp
      | some r =>
        rw [hR] at h
        dsimp only at h
        split at h
        · simp only [Option.some.injEq, Prod.mk.injEq] at h
          rw [← h.1]
          simp
        · exact ih _ _ _ _ h

/-! ## The shape of every run -/

/-- Every run from page 0 fetches and streams the pages `0 .. m - 1` in order, each after its
failures still due, and then either returns `nil` with `m = maxPages`, or returns the retriable
error after `R + 1` failed attempts on the failing page `m < maxPages`. -/
theorem run_shape (cfg : Config) (R : Nat) (hr : cfg.InRange) (hm1 : 1 ≤ cfg.maxPagesBugCacheSum)
    (ec : Int) (t : List Event) (fuel : Nat) (hlo : minInt ≤ ec)
    (hfuel : cfg.maxPagesBugCacheSum.toNat ≤ fuel) :
    ∃ (out : ListOutcome) (m : Nat) (tail : List Event) (ec1 : Int),
      listLoop cfg R fuel 0 ⟨ec, t⟩
        = some (out, ⟨ec1, t ++ (((List.range' 0 m).flatMap
            fun (q : Nat) => pageEvents cfg (q : Int) (retriesAt cfg ec (q : Int))) ++ tail)⟩) ∧
      (∀ q : Nat, q < m → retriesAt cfg ec (q : Int) ≤ R) ∧
      ((out = ListOutcome.returned none ∧ (m : Int) = cfg.maxPagesBugCacheSum ∧ tail = [] ∧
          ec1 = ec + (((List.range' 0 m).map
            fun (q : Nat) => retriesAt cfg ec (q : Int)).sum : Nat)) ∨
        (out = ListOutcome.returned (some cfg.retriableErrorString) ∧
          (m : Int) < cfg.maxPagesBugCacheSum ∧ cfg.errorAfterPagesBugCacheSum = (m : Int) ∧
          R < retriesAt cfg ec (m : Int) ∧
          tail = List.replicate (R + 1) (Event.fetch (m : Int) (some cfg.retriableErrorString)) ∧
          ((List.range' 0 m).map fun (q : Nat) => retriesAt cfg ec (q : Int)).sum = 0 ∧
          ec1 = ec + (R : Int) + 1)) := by
  by_cases hfail : ∃ k : Nat, cfg.errorAfterPagesBugCacheSum = (k : Int) ∧
      (k : Int) < cfg.maxPagesBugCacheSum ∧ R < retriesAt cfg ec (k : Int)
  · obtain ⟨k, hk, hk2, hn⟩ := hfail
    have hrun := run_fail cfg R hr k hk hk2 ec t fuel hlo (by omega) hn
    have hne : ∀ q ∈ List.range' 0 k, (q : Int) ≠ cfg.errorAfterPagesBugCacheSum := by
      intro q hq
      have := (List.mem_range'_1.mp hq).2
      rw [hk]
      omega
    have hflat : (List.range' 0 k).flatMap
          (fun (q : Nat) => pageEvents cfg (q : Int) (retriesAt cfg ec (q : Int)))
        = (List.range' 0 k).flatMap (fun (q : Nat) => pageEvents cfg (q : Int) 0) :=
      List.flatMap_congr fun q hq => by rw [retriesAt_of_ne cfg ec q (hne q hq)]
    refine ⟨_, k, _, _, ?_, ?_, Or.inr ⟨rfl, hk2, hk, hn, rfl,
      sum_retriesAt_of_ne cfg ec _ hne, rfl⟩⟩
    · rw [hrun, hflat, List.append_assoc]
    · intro q hq
      rw [retriesAt_of_ne cfg ec q (hne q (List.mem_range'_1.mpr ⟨by omega, by omega⟩))]
      omega
  · have hall : ∀ q : Nat, (q : Int) < cfg.maxPagesBugCacheSum →
        retriesAt cfg ec (q : Int) ≤ R := by
      intro q hq
      by_contra hgt
      by_cases hqe : cfg.errorAfterPagesBugCacheSum = (q : Int)
      · exact hfail ⟨q, hqe, hq, by omega⟩
      · rw [retriesAt_of_ne cfg ec q (fun h => hqe h.symm)] at hgt
        omega
    have hrun := run_ok cfg R hr hm1 ec t fuel hlo hfuel hall
    refine ⟨_, cfg.maxPagesBugCacheSum.toNat, [], _, ?_, ?_, Or.inl ⟨rfl, by omega, rfl, rfl⟩⟩
    · rw [hrun, List.append_nil]
    · intro q hq
      exact hall q (by omega)

/-! ## Counting fetches -/

theorem fetches_flatMap {α : Type} (f : α → List Event) (l : List α) :
    fetches (l.flatMap f) = l.flatMap fun a => fetches (f a) := by
  induction l with
  | nil => rfl
  | cons a l ih => rw [List.flatMap_cons, fetches_append, ih, List.flatMap_cons]

theorem failedFetches_append (p : Int) (a b : List Event) :
    failedFetches p (a ++ b) = failedFetches p a + failedFetches p b := by
  simp [failedFetches, fetches_append]

theorem failedFetches_replicate (p q : Int) (n : Nat) (e : String) :
    failedFetches p (List.replicate n (Event.fetch q (some e))) = if q = p then n else 0 := by
  rw [failedFetches, fetches_replicate_fetch]
  by_cases h : q = p
  · simp [h, List.filter_replicate]
  · simp [h, List.filter_replicate]

theorem failedFetches_pageEvents (cfg : Config) (p q : Int) (n : Nat) :
    failedFetches p (pageEvents cfg q n) = if q = p then n else 0 := by
  rw [failedFetches, fetches_pageEvents]
  by_cases h : q = p
  · simp [h, List.filter_replicate]
  · simp [h, List.filter_replicate]

theorem failedFetches_blocks (cfg : Config) (ec : Int) (l : List Nat) :
    failedFetches cfg.errorAfterPagesBugCacheSum
        (l.flatMap fun (q : Nat) => pageEvents cfg (q : Int) (retriesAt cfg ec (q : Int)))
      = (l.map fun (q : Nat) => retriesAt cfg ec (q : Int)).sum := by
  induction l with
  | nil => rfl
  | cons a l ih =>
    rw [List.flatMap_cons, failedFetches_append, ih, List.map_cons, List.sum_cons,
      failedFetches_pageEvents]
    by_cases h : (a : Int) = cfg.errorAfterPagesBugCacheSum
    · rw [if_pos h]
    · rw [if_neg h, retriesAt_of_ne cfg ec a h]

theorem sum_retriesAt_mem (cfg : Config) (ec : Int) (k : Nat)
    (hk : cfg.errorAfterPagesBugCacheSum = (k : Int)) :
    ∀ m : Nat, k < m →
      ((List.range' 0 m).map fun (q : Nat) => retriesAt cfg ec (q : Int)).sum
        = retriesAt cfg ec (k : Int) := by
  intro m
  induction m with
  | zero => intro h; omega
  | succ m ih =>
    intro h
    rw [List.range'_concat, List.map_append, List.sum_append]
    simp only [one_mul, zero_add, List.map_cons, List.map_nil, List.sum_cons, List.sum_nil,
      add_zero]
    by_cases hkm : k < m
    · rw [ih hkm, retriesAt_of_ne cfg ec m (by rw [hk]; omega)]
      omega
    · have hkm2 : k = m := by omega
      subst hkm2
      rw [sum_retriesAt_of_ne cfg ec _ (by
        intro q hq
        have := (List.mem_range'_1.mp hq).2
        rw [hk]
        omega)]
      omega

/-! ## The order of the fetches -/

theorem fetches_blocks (cfg : Config) (n : Nat → Nat) (l : List Nat) :
    fetches (l.flatMap fun (q : Nat) => pageEvents cfg (q : Int) (n q))
      = l.flatMap (pageFetches cfg n) := by
  rw [fetches_flatMap]
  exact List.flatMap_congr fun q _ => fetches_pageEvents cfg (q : Int) (n q)

theorem head_pageFetches (cfg : Config) (n : Nat → Nat) (q : Nat)
    (rest : List (Int × Option String)) :
    ∀ y ∈ (pageFetches cfg n q ++ rest).head?, y.1 = (q : Int) := by
  intro y hy
  unfold pageFetches at hy
  cases hn : n q with
  | zero =>
    rw [hn] at hy
    simp at hy
    rw [← hy]
  | succ k =>
    rw [hn] at hy
    simp [List.replicate_succ] at hy
    rw [← hy]

theorem head_blocks (cfg : Config) (n : Nat → Nat) (j p k : Nat) (e : Option String) :
    ∀ y ∈ ((List.range' p j).flatMap (pageFetches cfg n) ++
        List.replicate k (((p + j : Nat) : Int), e)).head?, y.1 = (p : Int) := by
  cases j with
  | zero =>
    intro y hy
    cases k with
    | zero => simp at hy
    | succ k =>
      simp [List.replicate_succ] at hy
      rw [← hy]
  | succ j =>
    rw [List.range'_succ, List.flatMap_cons, List.append_assoc]
    exact head_pageFetches cfg n p _

theorem chain_replicate_fail (cfg : Config) (q : Int) (k : Nat) :
    List.Chain' (FetchStep cfg) (List.replicate k (q, some cfg.retriableErrorString)) :=
  List.chain'_replicate_of_rel k (Or.inl ⟨rfl, rfl⟩)

theorem chain_pageFetches (cfg : Config) (n : Nat → Nat) (q : Nat)
    (rest : List (Int × Option String)) (hrest : List.Chain' (FetchStep cfg) rest)
    (hhead : ∀ y ∈ rest.head?, y.1 = (q : Int) + 1) :
    List.Chain' (FetchStep cfg) (pageFetches cfg n q ++ rest) := by
  have hlast : List.Chain' (FetchStep cfg) (((q : Int), none) :: rest) :=
    hrest.cons' fun y hy => Or.inr ⟨hhead y hy, rfl⟩
  unfold pageFetches
  rw [List.append_assoc, List.singleton_append]
  generalize n q = c
  induction c with
  | zero => simpa using hlast
  | succ c ih =>
    rw [List.replicate_succ, List.cons_append]
    refine ih.cons' fun y hy => Or.inl ⟨?_, rfl⟩
    cases c with
    | zero =>
      simp at hy
      rw [← hy]
    | succ c =>
      simp [List.replicate_succ] at hy
      rw [← hy]

theorem chain_blocks (cfg : Config) (n : Nat → Nat) (k : Nat) :
    ∀ (j p : Nat), List.Chain' (FetchStep cfg)
      ((List.range' p j).flatMap (pageFetches cfg n) ++
        List.replicate k (((p + j : Nat) : Int), some cfg.retriableErrorString)) := by
  intro j
  induction j with
  | zero =>
    intro p
    simpa using chain_replicate_fail cfg ((p : Nat) : Int) k
  | succ j ih =>
    intro p
    rw [List.range'_succ, List.flatMap_cons, List.append_assoc,
      show p + (j + 1) = (p + 1) + j by omega]
    refine chain_pageFetches cfg n p _ (ih (p + 1)) fun y hy => ?_
    rw [head_blocks cfg n j (p + 1) k _ y hy]
    push_cast
    rfl

theorem mem_blocks (cfg : Config) (n : Nat → Nat) (m : Nat) (f : Int × Option String)
    (hf : f ∈ (List.range' 0 m).flatMap (pageFetches cfg n)) :
    0 ≤ f.1 ∧ f.1 < (m : Int) ∧ (f.2 = none ∨ f.2 = some cfg.retriableErrorString) := by
  obtain ⟨q, hq, hfq⟩ := List.mem_flatMap.mp hf
  have hqm := (List.mem_range'_1.mp hq).2
  unfold pageFetches at hfq
  rcases List.mem_append.mp hfq with h | h
  · rw [(List.mem_replicate.mp h).2]
    exact ⟨by simp, by simp; omega, Or.inr rfl⟩
  · rw [List.mem_singleton.mp h]
    exact ⟨by simp, by simp; omega, Or.inl rfl⟩

theorem length_blocks (cfg : Config) (n : Nat → Nat) (l : List Nat) :
    (l.flatMap (pageFetches cfg n)).length = l.length + (l.map n).sum := by
  induction l with
  | nil => rfl
  | cons a l ih =>
    rw [List.flatMap_cons, List.length_append, ih]
    simp [pageFetches]
    omega

theorem successes_blocks (cfg : Config) (n : Nat → Nat) (l : List Nat) :
    ((l.flatMap (pageFetches cfg n)).filter fun f => f.2.isNone).length = l.length := by
  induction l with
  | nil => rfl
  | cons a l ih =>
    rw [List.flatMap_cons, List.filter_append, List.length_append, ih]
    simp [pageFetches, List.filter_replicate]
    omega

/-! ## The counter across runs -/

theorem run_counter (cfg : Config) (R : Nat) (hr : cfg.InRange)
    (hm1 : 1 ≤ cfg.maxPagesBugCacheSum) (fuel : Nat)
    (hfuel : cfg.maxPagesBugCacheSum.toNat ≤ fuel) (w : World) (hlo : minInt ≤ w.errorCount) :
    ∃ out w1, listBugCacheSumFunction cfg R fuel w = some (out, w1) ∧
      w1.errorCount + (failedFetches cfg.errorAfterPagesBugCacheSum w.trace : Int)
        = w.errorCount + (failedFetches cfg.errorAfterPagesBugCacheSum w1.trace : Int) ∧
      w.errorCount ≤ w1.errorCount := by
  obtain ⟨ec, t⟩ := w
  obtain ⟨out, m, tail, ec1, hrun, _, hcase⟩ := run_shape cfg R hr hm1 ec t fuel hlo hfuel
  refine ⟨out, _, hrun, ?_, ?_⟩
  · simp only [failedFetches_append, failedFetches_blocks]
    rcases hcase with ⟨_, _, htail, hec⟩ | ⟨_, _, hk, _, htail, hsum, hec⟩
    · rw [htail, hec]
      simp [failedFetches, fetches]
      omega
    · rw [htail, hec, hsum, failedFetches_replicate, if_pos hk.symm]
      push_cast
      omega
  · rcases hcase with ⟨_, _, _, hec⟩ | ⟨_, _, _, _, _, _, hec⟩
    · simp only [hec]; omega
    · simp only [hec]; omega

theorem listRuns_counter (cfg : Config) (hr : cfg.InRange) (hm1 : 1 ≤ cfg.maxPagesBugCacheSum)
    (fuel : Nat) (hfuel : cfg.maxPagesBugCacheSum.toNat ≤ fuel) :
    ∀ (Rs : List Nat) (w : World), minInt ≤ w.errorCount →
      ∃ w1, listRuns cfg fuel Rs w = some w1 ∧
        w1.errorCount + (failedFetches cfg.errorAfterPagesBugCacheSum w.trace : Int)
          = w.errorCount + (failedFetches cfg.errorAfterPagesBugCacheSum w1.trace : Int) ∧
        w.errorCount ≤ w1.errorCount := by
  intro Rs
  induction Rs with
  | nil => intro w _; exact ⟨w, rfl, rfl, le_refl _⟩
  | cons R Rs ih =>
    intro w hlo
    obtain ⟨out, w1, hrun, h1, h2⟩ := run_counter cfg R hr hm1 fuel hfuel w hlo
    obtain ⟨w2, hruns, h3, h4⟩ := ih w1 (by omega)
    refine ⟨w2, ?_, by omega, by omega⟩
    simp only [listRuns, hrun]
    exact hruns

/-- Once the counter has reached `failureCount`, a run under any retry budget fetches every
page once, streams every page and returns `nil`. -/
theorem run_after_budget (cfg : Config) (R : Nat) (hr : cfg.InRange)
    (hm1 : 1 ≤ cfg.maxPagesBugCacheSum) (fuel : Nat)
    (hfuel : cfg.maxPagesBugCacheSum.toNat ≤ fuel) (w : World) (hlo : minInt ≤ w.errorCount)
    (hfull : cfg.failureCountBugCacheSum ≤ w.errorCount) :
    listBugCacheSumFunction cfg R fuel w
      = some (ListOutcome.returned none,
          ⟨w.errorCount, w.trace ++ (List.range' 0 cfg.maxPagesBugCacheSum.toNat).flatMap
            fun (q : Nat) => pageEvents cfg (q : Int) 0⟩) := by
  obtain ⟨ec, t⟩ := w
  have hz : ∀ q : Int, retriesAt cfg ec q = 0 := by
    intro q
    unfold retriesAt
    split
    · simp only [World.errorCount] at hfull; omega
    · rfl
  have hrun := run_ok cfg R hr hm1 ec t fuel hlo hfuel (fun q _ => by rw [hz]; omega)
  simp only [hz, List.map_const', List.sum_replicate, smul_zero, Nat.cast_zero, add_zero]
    at hrun
  exact hrun

/-! ## Claims on the order and the number of fetches -/

/-- C11: for every configuration of 64-bit ints with `maxPages >= 1`, every retry budget and
every starting counter, the run consists of the blocks of pages `0 .. m - 1` (the failed
fetches of the page, its successful fetch, all its items streamed), followed by nothing or by
`R + 1` failed fetches of page `m < maxPages`; hence the pages fetched start at 0, never
decrease, move to the next page only directly after a successful fetch, repeat a page only
directly after a retriable failure of it, and all lie in `[0, maxPages)`, every fetch
returning no error or the retriable one. -/
theorem C11_page_sequence (cfg : Config) (R fuel : Nat) (errorCount : Int)
    (hr : cfg.InRange) (hec : IsInt errorCount) (hm : 1 ≤ cfg.maxPagesBugCacheSum)
    (hfuel : cfg.maxPagesBugCacheSum.toNat ≤ fuel) :
    ∃ (out : ListOutcome) (w : World) (m k : Nat),
      listBugCacheSumFunction cfg R fuel ⟨errorCount, []⟩ = some (out, w) ∧
      (m : Int) ≤ cfg.maxPagesBugCacheSum ∧
      (k = 0 ∨ (k = R + 1 ∧ (m : Int) < cfg.maxPagesBugCacheSum)) ∧
      w.trace
        = ((List.range' 0 m).flatMap
            fun (q : Nat) => pageEvents cfg (q : Int) (retriesAt cfg errorCount (q : Int))) ++
          List.replicate k (Event.fetch (m : Int) (some cfg.retriableErrorString)) ∧
      (∃ e, (fetches w.trace).head? = some (0, e)) ∧
      List.Chain' (FetchStep cfg) (fetches w.trace) ∧
      List.Chain' (fun a b => a.1 ≤ b.1) (fetches w.trace) ∧
      ∀ f ∈ fetches w.trace,
        0 ≤ f.1 ∧ f.1 < cfg.maxPagesBugCacheSum ∧
          (f.2 = none ∨ f.2 = some cfg.retriableErrorString) := by
  obtain ⟨out, m, tail, ec1, hrun, _, hcase⟩ :=
    run_shape cfg R hr hm errorCount [] fuel hec.1 hfuel
  have hk : ∃ k : Nat, (k = 0 ∨ (k = R + 1 ∧ (m : Int) < cfg.maxPagesBugCacheSum)) ∧
      tail = List.replicate k (Event.fetch (m : Int) (some cfg.retriableErrorString)) ∧
      (m : Int) ≤ cfg.maxPagesBugCacheSum ∧ 1 ≤ m + k := by
    rcases hcase with ⟨_, hmm, htail, _⟩ | ⟨_, hmm, _, _, htail, _, _⟩
    · exact ⟨0, Or.inl rfl, by simpa using htail, by omega, by omega⟩
    · exact ⟨R + 1, Or.inr ⟨rfl, hmm⟩, htail, by omega, by omega⟩
  obtain ⟨k, hk1, htail, hmle, hpos⟩ := hk
  have hf : fetches (((List.range' 0 m).flatMap
        fun (q : Nat) => pageEvents cfg (q : Int) (retriesAt cfg errorCount (q : Int))) ++
        List.replicate k (Event.fetch (m : Int) (some cfg.retriableErrorString)))
      = (List.range' 0 m).flatMap
          (pageFetches cfg fun (q : Nat) => retriesAt cfg errorCount (q : Int)) ++
        List.replicate k (((0 + m : Nat) : Int), some cfg.retriableErrorString) := by
    rw [fetches_append, fetches_blocks, fetches_replicate_fetch, Nat.zero_add]
  have hchain := chain_blocks cfg (fun (q : Nat) => retriesAt cfg errorCount (q : Int)) k m 0
  have hhead := head_blocks cfg (fun (q : Nat) => retriesAt cfg errorCount (q : Int)) m 0 k
    (some cfg.retriableErrorString)
  rw [htail, List.nil_append] at hrun
  refine ⟨out, _, m, k, hrun, hmle, hk1, rfl, ?_, ?_, ?_, ?_⟩
  · show ∃ e, (fetches _).head? = some (0, e)
    rw [hf]
    cases hh : ((List.range' 0 m).flatMap
        (pageFetches cfg fun (q : Nat) => retriesAt cfg errorCount (q : Int)) ++
        List.replicate k (((0 + m : Nat) : Int), some cfg.retriableErrorString)).head? with
    | none =>
      exfalso
      have hnil := List.head?_eq_none_iff.mp hh
      have hlen := congrArg List.length hnil
      rw [List.length_append, length_blocks, List.length_replicate, List.length_range',
        List.length_nil] at hlen
      omega
    | some y =>
      have h1 := hhead y (by rw [hh]; rfl)
      obtain ⟨y1, y2⟩ := y
      simp only [Nat.cast_zero] at h1
      exact ⟨y2, by rw [h1]⟩
  · show List.Chain' (FetchStep cfg) (fetches _)
    rw [hf]
    exact hchain
  · show List.Chain' (fun a b => a.1 ≤ b.1) (fetches _)
    rw [hf]
    refine hchain.imp fun a b hab => ?_
    rcases hab with h | h
    · exact le_of_eq h.1.symm
    · rw [h.1]; omega
  · show ∀ f ∈ fetches _, _
    rw [hf]
    intro f hmem
    rcases List.mem_append.mp hmem with h | h
    · have := mem_blocks cfg _ m f h
      exact ⟨this.1, by omega, this.2.2⟩
    · have hfe := (List.mem_replicate.mp h).2
      have hk0 : k ≠ 0 := (List.mem_replicate.mp h).1
      have hlt : (m : Int) < cfg.maxPagesBugCacheSum := by
        rcases hk1 with h0 | h1
        · exact absurd h0 hk0
        · exact h1.2
      rw [hfe]
      exact ⟨by simp, by simpa using hlt, Or.inr rfl⟩

/-- Witness of C11: the coded scenario under a policy that permits three retries. -/
theorem C11_page_sequence_witness :
    ∃ (out : ListOutcome) (w : World),
      listBugCacheSumFunction (codedConfig "retriable") 3 4 ⟨0, []⟩ = some (out, w) ∧
      (∃ e, (fetches w.trace).head? = some (0, e)) ∧
      List.Chain' (FetchStep (codedConfig "retriable")) (fetches w.trace) ∧
      ∀ f ∈ fetches w.trace, 0 ≤ f.1 ∧ f.1 < (codedConfig "retriable").maxPagesBugCacheSum ∧
        (f.2 = none ∨ f.2 = some (codedConfig "retriable").retriableErrorString) := by
  obtain ⟨out, w, _, _, h1, _, _, _, h2, h3, _, h4⟩ :=
    C11_page_sequence (codedConfig "retriable") 3 4 0 (by decide) (by decide) (by decide)
      (by decide)
  exact ⟨out, w, h1, h2, h3, h4⟩

/-- C12: for every configuration of 64-bit ints with `maxPages >= 1`,
`0 <= errorAfterPage < maxPages` and `failureCount >= 0`, from `errorCount = 0` and under a
policy that permits at least `failureCount` retries, the run returns `nil` after exactly
`maxPages + failureCount` calls of `getPageBugCacheSum`: `maxPages` successful ones and
`failureCount` failed ones, all of the latter for the failing page. -/
theorem C12_call_count (cfg : Config) (R fuel : Nat) (hr : cfg.InRange)
    (hm : 1 ≤ cfg.maxPagesBugCacheSum) (he0 : 0 ≤ cfg.errorAfterPagesBugCacheSum)
    (he1 : cfg.errorAfterPagesBugCacheSum < cfg.maxPagesBugCacheSum)
    (hfc : 0 ≤ cfg.failureCountBugCacheSum) (hR : cfg.failureCountBugCacheSum ≤ (R : Int))
    (hfuel : cfg.maxPagesBugCacheSum.toNat ≤ fuel) :
    ∃ w, listBugCacheSumFunction cfg R fuel ⟨0, []⟩ = some (ListOutcome.returned none, w) ∧
      ((fetches w.trace).length : Int)
        = cfg.maxPagesBugCacheSum + cfg.failureCountBugCacheSum ∧
      (((fetches w.trace).filter fun f => f.2.isNone).length : Int)
        = cfg.maxPagesBugCacheSum ∧
      (failedFetches cfg.errorAfterPagesBugCacheSum w.trace : Int)
        = cfg.failureCountBugCacheSum ∧
      w.errorCount = cfg.failureCountBugCacheSum := by
  have hret : ∀ q : Int, retriesAt cfg 0 q ≤ R := by
    intro q
    unfold retriesAt
    split <;> omega
  have hrun := run_ok cfg R hr hm 0 [] fuel (by decide) hfuel (fun q _ => hret q)
  obtain ⟨k, hk⟩ : ∃ k : Nat, cfg.errorAfterPagesBugCacheSum = (k : Int) :=
    ⟨cfg.errorAfterPagesBugCacheSum.toNat, by omega⟩
  have hsum := sum_retriesAt_mem cfg 0 k hk cfg.maxPagesBugCacheSum.toNat (by omega)
  have hrk : retriesAt cfg 0 (k : Int) = cfg.failureCountBugCacheSum.toNat := by
    unfold retriesAt
    rw [if_pos hk.symm]
    simp
  rw [hsum, hrk, List.nil_append] at hrun
  refine ⟨_, hrun, ?_, ?_, ?_, ?_⟩
  · show ((fetches _).length : Int) = _
    rw [fetches_blocks, length_blocks, List.length_range', hsum, hrk]
    push_cast
    omega
  · show (((fetches _).filter _).length : Int) = _
    rw [fetches_blocks, successes_blocks, List.length_range']
    omega
  · show (failedFetches _ _ : Int) = _
    rw [failedFetches_blocks, hsum, hrk]
    omega
  · show (0 : Int) + _ = _
    omega

/-- Witness of C12: the coded scenario under a policy that permits five retries makes nine
calls. -/
theorem C12_call_count_witness :
    ∃ w, listBugCacheSumFunction (codedConfig "retriable") 5 4 ⟨0, []⟩
        = some (ListOutcome.returned none, w) ∧
      ((fetches w.trace).length : Int) = 9 := by
  obtain ⟨w, h1, h2, _⟩ :=
    C12_call_count (codedConfig "retriable") 5 4 (by decide) (by decide) (by decide)
      (by decide) (by decide) (by decide) (by decide)
  exact ⟨w, h1, h2⟩

/-! ## Claims on repeated runs and on nil results -/

theorem listRuns_cons (cfg : Config) (fuel R : Nat) (rest : List Nat) (w w1 : World)
    (out : ListOutcome) (h : listBugCacheSumFunction cfg R fuel w = some (out, w1)) :
    listRuns cfg fuel (R :: rest) w = listRuns cfg fuel rest w1 := by
  simp only [listRuns, h]

theorem listRuns_nil (cfg : Config) (fuel : Nat) (w : World) :
    listRuns cfg fuel [] w = some w := rfl

theorem coded_two_runs (retriable : String) :
    ∃ t, listRuns (codedConfig retriable) 4 [3, 3] ⟨0, []⟩ = some ⟨5, t⟩ := by
  obtain ⟨w1, h1, hec1⟩ : ∃ w1 : World,
      listBugCacheSumFunction (codedConfig retriable) 3 4 ⟨0, []⟩
        = some (ListOutcome.returned (some (codedConfig retriable).retriableErrorString), w1) ∧
      w1.errorCount = 4 :=
    ⟨_, run_fail (codedConfig retriable) 3 (codedConfig_inRange retriable) 3 rfl
      (show ((3 : Nat) : Int) < 4 by decide) 0 [] 4 (by decide) (by omega)
      (by rw [retriesAt_coded]; decide), by norm_num⟩
  obtain ⟨ec1, t1⟩ := w1
  simp only at hec1
  subst hec1
  have hall : ∀ q : Nat, (q : Int) < (codedConfig retriable).maxPagesBugCacheSum →
      retriesAt (codedConfig retriable) 4 (q : Int) ≤ 3 := by
    intro q _
    rw [retriesAt_coded]
    split
    · decide
    · omega
  have h2 := run_ok (codedConfig retriable) 3 (codedConfig_inRange retriable)
    (show (1 : Int) ≤ 4 by decide) 4 t1 4 (by decide) (le_refl _) hall
  have h4 : (codedConfig retriable).maxPagesBugCacheSum.toNat = 4 := rfl
  have hl : List.range' 0 4 = [0, 1, 2, 3] := rfl
  have hs : (4 : Int)
      + ((([0, 1, 2, 3] : List Nat).map
          fun (q : Nat) => retriesAt (codedConfig retriable) 4 (q : Int)).sum : Nat) = 5 := by
    simp only [List.map_cons, List.map_nil, List.sum_cons, List.sum_nil, retriesAt_coded]
    norm_num
  rw [h4, hl, hs] at h2
  exact ⟨_, (listRuns_cons (codedConfig retriable) 4 3 [3] _ _ _ h1).trans
    ((listRuns_cons (codedConfig retriable) 4 3 [] _ _ _ h2).trans (listRuns_nil _ _ _))⟩

/-- C13: in the coded scenario, after any number of list runs under any retry budgets, started
from `errorCount = 0`, the counter equals the number of failed attempts on page 3 made so
far; and once these are at least 5, a further run under any retry budget (also zero) returns
no error, leaves the counter as it is, makes no failed attempt and streams the 10000 records
of pages 0 to 3. -/
theorem C13_counter_persists (retriable : String) (Rs : List Nat) (R fuel : Nat)
    (hfuel : 4 ≤ fuel) :
    ∃ w, listRuns (codedConfig retriable) fuel Rs ⟨0, []⟩ = some w ∧
      w.errorCount = (failedFetches 3 w.trace : Int) ∧
      (5 ≤ failedFetches 3 w.trace →
        ∃ w1, listBugCacheSumFunction (codedConfig retriable) R fuel w
            = some (ListOutcome.returned none, w1) ∧
          w1.errorCount = w.errorCount ∧
          failedFetches 3 w1.trace = failedFetches 3 w.trace ∧
          streamed w1.trace = streamed w.trace ++ pagesItems (codedConfig retriable) 4 ∧
          (pagesItems (codedConfig retriable) 4).length = 10000) := by
  have hfuel4 : (codedConfig retriable).maxPagesBugCacheSum.toNat ≤ fuel := by
    show (4 : Int).toNat ≤ fuel
    simpa using hfuel
  obtain ⟨w, hruns, hcount, hmono⟩ :=
    listRuns_counter (codedConfig retriable) (codedConfig_inRange retriable)
      (show (1 : Int) ≤ 4 by decide) fuel hfuel4 Rs ⟨0, []⟩ (by decide)
  have hcount2 : w.errorCount = (failedFetches 3 w.trace : Int) := by
    have h0 : failedFetches (codedConfig retriable).errorAfterPagesBugCacheSum
        (⟨0, []⟩ : World).trace = 0 := rfl
    rw [h0] at hcount
    have h3 : (codedConfig retriable).errorAfterPagesBugCacheSum = 3 := rfl
    rw [h3] at hcount
    simp only [Nat.cast_zero, add_zero, zero_add] at hcount
    exact hcount
  refine ⟨w, hruns, hcount2, ?_⟩
  intro h5
  have hfull : (codedConfig retriable).failureCountBugCacheSum ≤ w.errorCount := by
    show (5 : Int) ≤ w.errorCount
    omega
  have hrun := run_after_budget (codedConfig retriable) R (codedConfig_inRange retriable)
    (show (1 : Int) ≤ 4 by decide) fuel hfuel4 w
    (by simp only [World.errorCount] at hmono; unfold minInt; omega) hfull
  have h4 : (codedConfig retriable).maxPagesBugCacheSum.toNat = 4 := rfl
  rw [h4] at hrun
  refine ⟨_, hrun, rfl, ?_, ?_, ?_⟩
  · show failedFetches 3 (w.trace ++ _) = _
    have hz := failedFetches_blocks (codedConfig retriable) w.errorCount
      (List.range' 0 4)
    have hr0 : ∀ q : Int, retriesAt (codedConfig retriable) w.errorCount q = 0 := by
      intro q
      rw [retriesAt_coded]
      split
      · omega
      · rfl
    simp only [hr0, List.map_const', List.sum_replicate, smul_zero] at hz
    have h3 : (codedConfig retriable).errorAfterPagesBugCacheSum = 3 := rfl
    rw [h3] at hz
    rw [failedFetches_append, hz, add_zero]
  · show streamed (w.trace ++ _) = _
    rw [streamed_append, streamed_flatMap_pageEvents (codedConfig retriable) (fun _ => 0),
      pagesItems_eq_range']
  · rw [length_pagesItems]
    rfl

/-- Witness of C13: two runs under a policy that permits three retries (the first fails after
four attempts on page 3, the second fails once and then succeeds), then a run under a policy
that permits no retry. -/
theorem C13_counter_persists_witness :
    ∃ w w1, listRuns (codedConfig "retriable") 4 [3, 3] ⟨0, []⟩ = some w ∧
      w.errorCount = 5 ∧
      listBugCacheSumFunction (codedConfig "retriable") 0 4 w
        = some (ListOutcome.returned none, w1) ∧
      streamed w1.trace = streamed w.trace ++ pagesItems (codedConfig "retriable") 4 ∧
      (pagesItems (codedConfig "retriable") 4).length = 10000 := by
  obtain ⟨w, hruns, hcount, himp⟩ := C13_counter_persists "retriable" [3, 3] 0 4 (by decide)
  obtain ⟨t, ht⟩ := coded_two_runs "retriable"
  have hw : w = ⟨5, t⟩ := Option.some.inj (hruns.symm.trans ht)
  have h5 : w.errorCount = 5 := by rw [hw]
  obtain ⟨w1, hrun, _, _, hstr, hlen⟩ := himp (by omega)
  exact ⟨w, w1, hruns, h5, hrun, hstr, hlen⟩

/-- C14, as stated, fails: in the coded scenario the call for the largest `int` succeeds and
returns the smallest `int` as `NextPage`, not `p + 1`; and in a configuration whose `maxPages`
is `-5` the call for page `-2`, which is above `maxPages`, succeeds and returns the sentinel. -/
theorem C14_counterexample :
    ((codedConfig "retriable").maxPagesBugCacheSum < maxInt ∧
      (getPageBugCacheSum (codedConfig "retriable") maxInt 0).1.err = none ∧
      (getPageBugCacheSum (codedConfig "retriable") maxInt 0).1.resp
        = some { NextPage := minInt } ∧
      minInt ≠ maxInt + 1) ∧
    ((-5 : Int) < -2 ∧
      (getPageBugCacheSum { codedConfig "retriable" with maxPagesBugCacheSum := -5 } (-2) 0).1.err
        = none ∧
      (getPageBugCacheSum { codedConfig "retriable" with maxPagesBugCacheSum := -5 } (-2)
        0).1.resp = some { NextPage := noMorePagesBugCacheSum }) := by
  decide

/-- C14, amended: for every page index `p` (a 64-bit `int`) other than `maxPages` and every
state, the call either fails with the retriable error, with no items and no paging response
(and then `p` is the failing page and `errorCount < failureCount`), or succeeds with a paging
response; for a successful call with `p > maxPages`: when `p` is below the largest `int`,
`NextPage` is `p + 1`, which is the sentinel only for `p = -2`; when `maxPages >= -2` it is
never the sentinel; when `p` is the largest `int`, `p + 1` has wrapped to the smallest. -/
theorem C14_invalid_only_at_maxPages (cfg : Config) (p errorCount : Int) (hp : IsInt p)
    (hne : p ≠ cfg.maxPagesBugCacheSum) :
    ((getPageBugCacheSum cfg p errorCount).1
        = { items := [], resp := none, err := some cfg.retriableErrorString } ∧
      p = cfg.errorAfterPagesBugCacheSum ∧ errorCount < cfg.failureCountBugCacheSum) ∨
    ((getPageBugCacheSum cfg p errorCount).1.err = none ∧
      ¬ (p = cfg.errorAfterPagesBugCacheSum ∧ errorCount < cfg.failureCountBugCacheSum) ∧
      ∃ r, (getPageBugCacheSum cfg p errorCount).1.resp = some r ∧
        (cfg.maxPagesBugCacheSum < p → p < maxInt →
          r.NextPage = p + 1 ∧ (r.NextPage = noMorePagesBugCacheSum ↔ p = -2)) ∧
        (cfg.maxPagesBugCacheSum < p → -2 ≤ cfg.maxPagesBugCacheSum →
          r.NextPage ≠ noMorePagesBugCacheSum) ∧
        (cfg.maxPagesBugCacheSum < p → p = maxInt →
          r.NextPage = if cfg.maxPagesBugCacheSum = minInt then noMorePagesBugCacheSum
            else minInt)) := by
  by_cases he : p = cfg.errorAfterPagesBugCacheSum ∧ errorCount < cfg.failureCountBugCacheSum
  · left
    rw [getPage_retriable cfg p errorCount hne he.1 he.2]
    exact ⟨rfl, he.1, he.2⟩
  · right
    rw [getPage_ok cfg p errorCount hne he]
    have hmid : cfg.maxPagesBugCacheSum < p → p < maxInt → nextOf cfg p = p + 1 := by
      intro h1 h2
      have hw : wrapInt (p + 1) = p + 1 := wrapInt_succ hp.1 h2
      unfold nextOf
      rw [hw, if_neg (by omega)]
    have htop : p = maxInt →
        nextOf cfg p = if cfg.maxPagesBugCacheSum = minInt then noMorePagesBugCacheSum
          else minInt := by
      intro h
      subst h
      have hw : wrapInt (maxInt + 1) = minInt := by decide
      unfold nextOf
      rw [hw]
      by_cases hm : cfg.maxPagesBugCacheSum = minInt
      · simp [hm]
      · have hm2 : ¬ (minInt = cfg.maxPagesBugCacheSum) := fun h => hm h.symm
        simp [hm, hm2]
    refine ⟨rfl, he, _, rfl, ?_, ?_, ?_⟩
    · intro h1 h2
      refine ⟨hmid h1 h2, ?_⟩
      show nextOf cfg p = noMorePagesBugCacheSum ↔ p = -2
      rw [hmid h1 h2]
      unfold noMorePagesBugCacheSum
      omega
    · intro h1 h2
      show nextOf cfg p ≠ noMorePagesBugCacheSum
      by_cases h3 : p = maxInt
      · rw [htop h3, if_neg (by unfold minInt; omega)]
        decide
      · have h4 : p < maxInt := lt_of_le_of_ne hp.2 h3
        rw [hmid h1 h4]
        unfold noMorePagesBugCacheSum
        omega
    · intro _ h2
      exact htop h2

/-- Witness of C14: page 7 of the coded scenario. -/
theorem C14_invalid_only_at_maxPages_witness :
    ∃ r, (getPageBugCacheSum (codedConfig "retriable") 7 0).1.resp = some r ∧
      r.NextPage = 7 + 1 ∧ r.NextPage ≠ noMorePagesBugCacheSum := by
  rcases C14_invalid_only_at_maxPages (codedConfig "retriable") 7 0 (by decide) (by decide)
    with h | ⟨_, _, r, hr, h1, h2, _⟩
  · exact absurd h.2.1 (by decide)
  · exact ⟨r, hr, (h1 (by decide) (by decide)).1, h2 (by decide) (by decide)⟩

/-- C15: for every page index and every state, `getPageBugCacheSum` returns either a non-nil
error together with nil items and a nil paging response, or a nil error together with a
non-nil paging response; the retry wrapper hands a nil error on only together with a non-nil
paging response; hence no run of `listBugCacheSumFunction` ends in a nil dereference at the
read of `resp.NextPage`. -/
theorem C15_no_nil_dereference (cfg : Config) (p errorCount : Int) (R fuel : Nat) (w : World) :
    (((getPageBugCacheSum cfg p errorCount).1.err ≠ none ∧
          (getPageBugCacheSum cfg p errorCount).1.items = [] ∧
          (getPageBugCacheSum cfg p errorCount).1.resp = none) ∨
        ((getPageBugCacheSum cfg p errorCount).1.err = none ∧
          (getPageBugCacheSum cfg p errorCount).1.resp ≠ none)) ∧
      ((RetryHydrate (shouldRetryErrorLegacy cfg) (listPage cfg p) R w).1.2 = none →
        (RetryHydrate (shouldRetryErrorLegacy cfg) (listPage cfg p) R w).1.1.Resp ≠ none) ∧
      (listBugCacheSumFunction cfg R fuel w).map (fun r => r.1) ≠ some ListOutcome.nilDeref := by
  refine ⟨getPage_nil_shape cfg p errorCount, retry_nil_shape cfg p R w, ?_⟩
  intro h
  cases hrun : listBugCacheSumFunction cfg R fuel w with
  | none => rw [hrun] at h; simp at h
  | some r =>
    obtain ⟨out, w1⟩ := r
    rw [hrun] at h
    simp only [Option.map_some', Option.some.injEq] at h
    exact listLoop_ne_nilDeref cfg R fuel 0 w out w1 hrun h

end Chaos
